import Mathlib

/-!
Verification of the syncwhere collaborative-editing server core
(`src/unnamed/part_002`): LSEQ id allocator, chunk store, op log replay,
version clock, snapshot/sync persistence and the websocket session registry.

Conventions of the shallow embedding:
* LSEQ ids are modelled by their integer-component lists (`stringToLseq`
  image); the dot-joined zero-padded string rendering is a bijection on
  well-formed ids, so `compareLseq` and all chunk operations work on the
  component lists directly.
* Chunk texts and version strings are `List Char` (JS strings).
* `Math.random()` is modelled by an oracle `rand : Nat → Nat → Nat`
  mapping the loop depth and the gap size to the drawn value
  `Math.floor(Math.random() * gap)`; theorems assume the draw is in range.
* Async Redis/Prisma I/O is modelled by explicit state passing: the Redis
  document cache is a function `Nat → Option Doc`, the durable row an
  `Option StoredDoc`; `safeRedis` fallbacks correspond to `Option` misses.
-/

namespace Syncwhere

/-- An LSEQ identifier: the list of integer components of the dot-joined id
string (e.g. `"00001.32768"` ↦ `[1, 32768]`). -/
abbrev LseqId := List Nat

def LSEQ_MIN : Nat := 1

def LSEQ_MAX : Nat := 65535

def LSEQ_MID : Nat := 32768

/-- `compareLseq(a, b)` from the source: componentwise comparison with the
prefix rule (shorter list sorts before any extension); returns -1/0/1. -/
def compareLseq : LseqId → LseqId → Int
  | [], [] => 0
  | [], _ :: _ => -1
  | _ :: _, [] => 1
  | a :: as, b :: bs =>
    if a < b then -1 else if b < a then 1 else compareLseq as bs

/-- The body of the `while (true)` loop of `generateLseqBetween`: at each
depth `l = left[depth] ?? 0`, `r = right[depth] ?? 65536`; if `r - l > 1`
draw a value in `[l+1, r-1]` and stop, else push `l` and descend.  The
loop is modelled by structural descent on the two component lists (the
source indexes the fixed arrays by `depth`; dropping one head per step is
the same access pattern), and the JS negative `r - l` is truncated `Nat`
subtraction, which selects the same branch since `r - l > 1 ↔ r ≥ l + 2`
in both arithmetics. -/
def genGo (rand : Nat → Nat → Nat) (depth : Nat) (left right : List Nat) :
    List Nat :=
  if 1 < right.headD (LSEQ_MAX + 1) - left.headD 0 then
    [left.headD 0 + 1 +
      rand depth (right.headD (LSEQ_MAX + 1) - left.headD 0 - 1)]
  else
    left.headD 0 :: genGo rand (depth + 1) left.tail right.tail
termination_by left.length + right.length
decreasing_by
  cases left <;> cases right <;> simp_all [LSEQ_MAX]
  all_goals omega

/-- `generateLseqBetween(leftId, rightId)`: a `null` neighbor becomes the
empty component list (`stringToLseq` of a falsy value). -/
def generateLseqBetween (leftId rightId : Option LseqId)
    (rand : Nat → Nat → Nat) : LseqId :=
  genGo rand 0 (leftId.getD []) (rightId.getD [])

/-- `generateInitialLseq()`. -/
def generateInitialLseq : LseqId := [LSEQ_MID]

/-- A well-formed id component: positive and at most 65535. -/
def ValidComponents (id : LseqId) : Prop := ∀ x ∈ id, 1 ≤ x ∧ x ≤ LSEQ_MAX

instance : DecidablePred ValidComponents := fun id =>
  inferInstanceAs (Decidable (∀ x ∈ id, 1 ≤ x ∧ x ≤ LSEQ_MAX))

/-- A chunk `{id, text}`: a maximal run of characters under one LSEQ id. -/
structure Chunk where
  id : LseqId
  text : List Char
deriving DecidableEq, Repr

/-- Placeholder for the `undefined` produced by out-of-range JS array
indexing; the binary searches below never actually read it in range. -/
def defaultChunk : Chunk := ⟨[], []⟩

/-- Loop of `findChunkIndex`: binary search with `lo`, `hi` as (possibly
negative, hence `Int`) bounds exactly as in the source; `-1` is `none`. -/
def findChunkIndexGo (chunks : List Chunk) (id : LseqId) (lo hi : Int) :
    Option Nat :=
  if lo ≤ hi then
    if compareLseq (chunks.getD ((lo + hi) / 2).toNat defaultChunk).id id
        = 0 then
      some ((lo + hi) / 2).toNat
    else if compareLseq (chunks.getD ((lo + hi) / 2).toNat defaultChunk).id id
        < 0 then
      findChunkIndexGo chunks id ((lo + hi) / 2 + 1) hi
    else
      findChunkIndexGo chunks id lo ((lo + hi) / 2 - 1)
  else none
termination_by (hi + 1 - lo).toNat
decreasing_by all_goals omega

/-- `findChunkIndex(chunks, id)`: index of the chunk with this id, `none`
for the source's `-1` (also on the falsy-`id` / empty-array guard). -/
def findChunkIndex (chunks : List Chunk) (id : LseqId) : Option Nat :=
  if id = [] ∨ chunks = [] then none
  else findChunkIndexGo chunks id 0 ((chunks.length : Int) - 1)

/-- Loop of `findChunkInsertPos`: lower-bound binary search. -/
def findChunkInsertPosGo (chunks : List Chunk) (id : LseqId) (lo hi : Nat) :
    Nat :=
  if lo < hi then
    if compareLseq (chunks.getD ((lo + hi) / 2) defaultChunk).id id < 0 then
      findChunkInsertPosGo chunks id ((lo + hi) / 2 + 1) hi
    else
      findChunkInsertPosGo chunks id lo ((lo + hi) / 2)
  else lo
termination_by hi - lo
decreasing_by all_goals omega

/-- `findChunkInsertPos(chunks, id)`. -/
def findChunkInsertPos (chunks : List Chunk) (id : LseqId) : Nat :=
  findChunkInsertPosGo chunks id 0 chunks.length

/-- `insertChunk(chunks, chunk)`: splice the chunk in at its insert
position, refusing a duplicate id (`return -1`, modelled as `none`);
`some` carries the updated array and the insert position. -/
def insertChunk (chunks : List Chunk) (chunk : Chunk) :
    Option (List Chunk × Nat) :=
  if findChunkInsertPos chunks chunk.id < chunks.length ∧
      compareLseq
        (chunks.getD (findChunkInsertPos chunks chunk.id) defaultChunk).id
        chunk.id = 0 then
    none
  else
    some
      (chunks.take (findChunkInsertPos chunks chunk.id) ++
        chunk :: chunks.drop (findChunkInsertPos chunks chunk.id),
        findChunkInsertPos chunks chunk.id)

/-- `insertChunk` as used by callers that ignore the duplicate-id refusal
(the split loop and replay): on refusal the array is left unchanged. -/
def insertChunk' (chunks : List Chunk) (chunk : Chunk) : List Chunk :=
  match insertChunk chunks chunk with
  | none => chunks
  | some (cs, _) => cs

/-- Linear ordered insert with duplicate refusal: the specification-side
view of `insertChunk` on sorted arrays (proved equal to it below). -/
def orderedInsertCh : List Chunk → Chunk → List Chunk
  | [], c => [c]
  | d :: cs, c =>
    if compareLseq c.id d.id = -1 then c :: d :: cs
    else if compareLseq c.id d.id = 0 then d :: cs
    else d :: orderedInsertCh cs c

/-- `chunksToContent(chunks)`: concatenation of the texts in array order. -/
def chunksToContent (chunks : List Chunk) : List Char :=
  (chunks.map Chunk.text).flatten

/-- The chunk-list invariant: strictly increasing by `compareLseq` id. -/
def ChunksSorted (chunks : List Chunk) : Prop :=
  chunks.Pairwise fun a b => compareLseq a.id b.id = -1

instance : DecidablePred ChunksSorted := fun chunks =>
  inferInstanceAs (Decidable (chunks.Pairwise _))

/-- Reference association lookup (specification-side helper): the text of
the first chunk carrying this id. -/
def lookupText : List Chunk → LseqId → Option (List Char)
  | [], _ => none
  | c :: cs, x => if c.id = x then some c.text else lookupText cs x

/-! ### Version clock (`service.snapshot.log` strings) -/

/-- The parsed version triple. -/
structure Version where
  service : Nat
  snapshot : Nat
  log : Nat
deriving DecidableEq, Repr

/-- `versionStr.split(".")` on the character list. -/
def splitOnDot : List Char → List (List Char)
  | [] => [[]]
  | c :: rest =>
    if c = '.' then [] :: splitOnDot rest
    else
      match splitOnDot rest with
      | [] => [[c]]
      | p :: ps => (c :: p) :: ps

/-- `parseInt(s, 10)` on the inputs occurring here: the maximal leading
digit run; `none` models `NaN`. -/
def jsParseInt (cs : List Char) : Option Nat :=
  if cs.takeWhile Char.isDigit = [] then none
  else
    some ((cs.takeWhile Char.isDigit).foldl
      (fun a c => a * 10 + (c.toNat - 48)) 0)

/-- JS `x || d` for a `parseInt` result: `NaN` (`none`) and `0` are falsy. -/
def jsOrNat (x : Option Nat) (d : Nat) : Nat :=
  match x with
  | none => d
  | some n => if n = 0 then d else n

/-- `parseInt(parts[i]) || d`, with `parts[i]` possibly `undefined`. -/
def parsePart (parts : List (List Char)) (i : Nat) (d : Nat) : Nat :=
  jsOrNat ((parts.get? i).bind jsParseInt) d

/-- `parseVersion(versionStr)` including the `|| "1.0.0"` default and the
per-part `|| 1` / `|| 0` fallbacks. -/
def parseVersion (versionStr : List Char) : Version :=
  let parts := splitOnDot
    (if versionStr = [] then ['1', '.', '0', '.', '0'] else versionStr)
  { service := parsePart parts 0 1
    snapshot := parsePart parts 1 0
    log := parsePart parts 2 0 }

/-- Decimal digits of `String(n)`. -/
def natChars (n : Nat) : List Char := Nat.toDigits 10 n

/-- `stringifyVersion(versionObj)`. -/
def stringifyVersion (v : Version) : List Char :=
  natChars v.service ++ '.' :: natChars v.snapshot ++ '.' :: natChars v.log

/-- `compareVersion(a, b)` on version strings (the object overload parses
to the same triple). -/
def compareVersion (a b : List Char) : Int :=
  if (parseVersion a).service ≠ (parseVersion b).service then
    if (parseVersion b).service < (parseVersion a).service then 1 else -1
  else if (parseVersion a).snapshot ≠ (parseVersion b).snapshot then
    if (parseVersion b).snapshot < (parseVersion a).snapshot then 1 else -1
  else if (parseVersion a).log ≠ (parseVersion b).log then
    if (parseVersion b).log < (parseVersion a).log then 1 else -1
  else 0

/-- `incrementLogVersion(versionStr)`. -/
def incrementLogVersion (versionStr : List Char) : List Char :=
  stringifyVersion
    { parseVersion versionStr with log := (parseVersion versionStr).log + 1 }

/-- `incrementSnapshotVersion(versionStr)`: bump snapshot, reset log. -/
def incrementSnapshotVersion (versionStr : List Char) : List Char :=
  stringifyVersion
    { parseVersion versionStr with
        snapshot := (parseVersion versionStr).snapshot + 1
        log := 0 }

/-- `SERVICE_VERSION` is `"1"`; `createInitialVersion()`. -/
def createInitialVersion : List Char := ['1', '.', '0', '.', '0']

/-! ### Document status -/

def DOC_STATUS_NORMAL : Nat := 0

def DOC_STATUS_DELETED : Nat := 1

def DOC_STATUS_LOCKED : Nat := 2

/-! ### Op log and replay -/

/-- A `logMetadata` entry.  `userId` and `timestamp` are advisory and are
never read by replay. -/
inductive OpEntry where
  | insert (id : LseqId) (text : List Char) (leftId rightId : Option LseqId)
      (userId timestamp : Nat)
  | split (targetId : LseqId) (offset : Int)
      (originalText leftText : List Char) (insertId : LseqId)
      (insertText : List Char) (rightId : Option LseqId)
      (rightText : List Char) (userId timestamp : Nat)
  | delete (id : LseqId) (text : List Char) (userId timestamp : Nat)
  | trim (id : LseqId) (startOffset endOffset : Int)
      (deletedText newText : List Char) (userId timestamp : Nat)
deriving DecidableEq, Repr

/-- `applyLogEntry(chunks, entry)`: replay one entry; entries whose looked
up chunk is missing fall through unchanged (`targetIdx === -1` guards). -/
def applyLogEntry (chunks : List Chunk) (entry : OpEntry) : List Chunk :=
  match entry with
  | .insert id text _ _ _ _ => insertChunk' chunks ⟨id, text⟩
  | .split targetId _ _ leftText insertId insertText rightId rightText _ _ =>
    match findChunkIndex chunks targetId with
    | none => chunks
    | some targetIdx =>
      let c1 := chunks.take targetIdx ++ chunks.drop (targetIdx + 1)
      let c2 :=
        if leftText ≠ [] then insertChunk' c1 ⟨targetId, leftText⟩ else c1
      let c3 := insertChunk' c2 ⟨insertId, insertText⟩
      match rightId with
      | some rid =>
        if rightText ≠ [] then insertChunk' c3 ⟨rid, rightText⟩ else c3
      | none => c3
  | .delete id _ _ _ =>
    match findChunkIndex chunks id with
    | none => chunks
    | some idx => chunks.take idx ++ chunks.drop (idx + 1)
  | .trim id _ _ _ newText _ _ =>
    match findChunkIndex chunks id with
    | none => chunks
    | some idx =>
      if newText = [] then chunks.take idx ++ chunks.drop (idx + 1)
      else chunks.set idx ⟨(chunks.getD idx defaultChunk).id, newText⟩

/-- `applyLogs(snapshotChunks, logs)`: the `JSON` deep copy is the
identity on pure data, then the entries are applied in order. -/
def applyLogs (snapshotChunks : List Chunk) (logs : List OpEntry) :
    List Chunk :=
  logs.foldl applyLogEntry snapshotChunks

/-- The id looked up by replay: `delete`/`trim` target, `split` target.
An `insert` looks up no pre-existing chunk. -/
def OpEntry.refId : OpEntry → Option LseqId
  | .insert _ _ _ _ _ _ => none
  | .split targetId _ _ _ _ _ _ _ _ _ => some targetId
  | .delete id _ _ _ => some id
  | .trim id _ _ _ _ _ _ => some id

/-- All chunk ids an entry mentions at replay time. -/
def entryIds : OpEntry → List LseqId
  | .insert id _ _ _ _ _ => [id]
  | .split targetId _ _ _ insertId _ rightId _ _ _ =>
    targetId :: insertId :: rightId.toList
  | .delete id _ _ _ => [id]
  | .trim id _ _ _ _ _ _ => [id]

/-- Two entries commute syntactically when they mention disjoint ids. -/
def EntryDisjoint (a b : OpEntry) : Prop := ∀ x ∈ entryIds a, x ∉ entryIds b

instance (a b : OpEntry) : Decidable (EntryDisjoint a b) :=
  inferInstanceAs (Decidable (∀ x ∈ entryIds a, x ∉ entryIds b))

/-- One adjacent transposition of two id-disjoint entries. -/
inductive CommSwap : List OpEntry → List OpEntry → Prop where
  | mk (pre post : List OpEntry) (a b : OpEntry) : EntryDisjoint a b →
      CommSwap (pre ++ a :: b :: post) (pre ++ b :: a :: post)

/-- Permutations reachable by transposing only commuting (id-disjoint)
adjacent operations. -/
inductive CommPerm : List OpEntry → List OpEntry → Prop where
  | refl (l : List OpEntry) : CommPerm l l
  | step {l₁ l₂ l₃ : List OpEntry} :
      CommSwap l₁ l₂ → CommPerm l₂ l₃ → CommPerm l₁ l₃

/-! ### JS string helpers for `trimChunk` -/

/-- `String.prototype.substring(a, b)`: clamp both indices into
`[0, length]` and swap them if out of order. -/
def jsSubstring (s : List Char) (a b : Int) : List Char :=
  (s.take (max (min (max a 0) s.length).toNat (min (max b 0) s.length).toNat)).drop
    (min (min (max a 0) s.length).toNat (min (max b 0) s.length).toNat)

/-! ### Cached document record and dispatcher mutations -/

/-- The Redis-cached document record (core fields; `name`, `dir`, `depth`,
timestamps and the derived legacy `chars` mirror are carried by the source
but read by no claim). -/
structure Doc where
  channelId : Nat
  content : List Char
  chunks : List Chunk
  logMetadata : List OpEntry
  snapshotVersion : List Char
  status : Nat
deriving DecidableEq, Repr

/-- The in-memory document cache `docId ↦ record` (Redis hot tier). -/
abbrev DocCache := Nat → Option Doc

def cacheSet (cache : DocCache) (docId : Nat) (doc : Doc) : DocCache :=
  fun i => if i = docId then some doc else cache i

/-- Return payload of `insertTextToDoc`. -/
structure InsertResult where
  newVersion : List Char
  newId : LseqId
  text : List Char
  content : List Char
deriving DecidableEq, Repr

/-- Body of `insertTextToDoc` after the cache read (the source mutates the
fetched record and writes it back; the wrapper below re-attaches the
cache).  `rand` stands for the `Math.random()` draws of the single
`generateLseqBetween` call. -/
def insertTextCore (rand : Nat → Nat → Nat) (doc : Doc)
    (leftId rightId : Option LseqId) (text : List Char) (userId time : Nat) :
    Option (InsertResult × Doc) :=
  if doc.status ≠ DOC_STATUS_NORMAL then none
  else
    match insertChunk doc.chunks
        ⟨generateLseqBetween leftId rightId rand, text⟩ with
    | none => none
    | some (chunks, _) =>
      some
        ({ newVersion := incrementLogVersion doc.snapshotVersion
           newId := generateLseqBetween leftId rightId rand
           text := text
           content := chunksToContent chunks },
         { doc with
            chunks := chunks
            content := chunksToContent chunks
            logMetadata := doc.logMetadata ++
              [OpEntry.insert (generateLseqBetween leftId rightId rand) text
                leftId rightId userId time]
            snapshotVersion := incrementLogVersion doc.snapshotVersion })

/-- `insertTextToDoc(docId, leftId, rightId, text, userId)`. -/
def insertTextToDoc (rand : Nat → Nat → Nat) (cache : DocCache)
    (docId : Nat) (leftId rightId : Option LseqId) (text : List Char)
    (userId time : Nat) : Option InsertResult × DocCache :=
  match cache docId with
  | none => (none, cache)
  | some doc =>
    match insertTextCore rand doc leftId rightId text userId time with
    | none => (none, cache)
    | some (r, doc2) => (some r, cacheSet cache docId doc2)

/-- Return payload of `splitAndInsert`. -/
structure SplitResult where
  newVersion : List Char
  newId : LseqId
  text : List Char
  splitResult : List Chunk
  content : List Char
deriving DecidableEq, Repr

/-- Body of `splitAndInsert` after the cache read.  `rand1`/`rand2` are
the draws of the two `generateLseqBetween` calls. -/
def splitAndInsertCore (rand1 rand2 : Nat → Nat → Nat) (doc : Doc)
    (targetId : LseqId) (offset : Int) (text : List Char)
    (userId time : Nat) : Option (SplitResult × Doc) :=
  if doc.status ≠ DOC_STATUS_NORMAL then none
  else
    match findChunkIndex doc.chunks targetId with
    | none => none
    | some targetIdx =>
      if offset < 0 ∨
          ((doc.chunks.getD targetIdx defaultChunk).text.length : Int)
            < offset then none
      else
        let originalText := (doc.chunks.getD targetIdx defaultChunk).text
        let leftText := originalText.take offset.toNat
        let rightText := originalText.drop offset.toNat
        let nextId := (doc.chunks.get? (targetIdx + 1)).map Chunk.id
        let insertId := generateLseqBetween (some targetId) nextId rand1
        let rightId := generateLseqBetween (some insertId) nextId rand2
        let newChunks :=
          (if leftText ≠ [] then [Chunk.mk targetId leftText] else []) ++
            [Chunk.mk insertId text] ++
            (if rightText ≠ [] then [Chunk.mk rightId rightText] else [])
        let chunks := newChunks.foldl insertChunk'
          (doc.chunks.take targetIdx ++ doc.chunks.drop (targetIdx + 1))
        some
          ({ newVersion := incrementLogVersion doc.snapshotVersion
             newId := insertId
             text := text
             splitResult := newChunks
             content := chunksToContent chunks },
           { doc with
              chunks := chunks
              content := chunksToContent chunks
              logMetadata := doc.logMetadata ++
                [OpEntry.split targetId offset originalText leftText insertId
                  text (if rightText ≠ [] then some rightId else none)
                  rightText userId time]
              snapshotVersion := incrementLogVersion doc.snapshotVersion })

/-- `splitAndInsert(docId, targetId, offset, text, userId)`. -/
def splitAndInsert (rand1 rand2 : Nat → Nat → Nat) (cache : DocCache)
    (docId : Nat) (targetId : LseqId) (offset : Int) (text : List Char)
    (userId time : Nat) : Option SplitResult × DocCache :=
  match cache docId with
  | none => (none, cache)
  | some doc =>
    match splitAndInsertCore rand1 rand2 doc targetId offset text userId
        time with
    | none => (none, cache)
    | some (r, doc2) => (some r, cacheSet cache docId doc2)

/-- Outcome of `deleteChunk`. -/
inductive DeleteOut where
  | alreadyDeleted
  | ok (newVersion : List Char) (deletedId : LseqId)
      (deletedText content : List Char) (doc : Doc)
deriving DecidableEq, Repr

/-- Body of `deleteChunk` after the cache read. -/
def deleteChunkCore (doc : Doc) (chunkId : LseqId) (userId time : Nat) :
    Option DeleteOut :=
  if doc.status ≠ DOC_STATUS_NORMAL then none
  else
    match findChunkIndex doc.chunks chunkId with
    | none => some .alreadyDeleted
    | some chunkIdx =>
      some (.ok (incrementLogVersion doc.snapshotVersion) chunkId
        (doc.chunks.getD chunkIdx defaultChunk).text
        (chunksToContent
          (doc.chunks.take chunkIdx ++ doc.chunks.drop (chunkIdx + 1)))
        { doc with
            chunks := doc.chunks.take chunkIdx ++
              doc.chunks.drop (chunkIdx + 1)
            content := chunksToContent
              (doc.chunks.take chunkIdx ++ doc.chunks.drop (chunkIdx + 1))
            logMetadata := doc.logMetadata ++
              [OpEntry.delete chunkId
                (doc.chunks.getD chunkIdx defaultChunk).text userId time]
            snapshotVersion := incrementLogVersion doc.snapshotVersion })

/-- `deleteChunk(docId, chunkId, userId)`. -/
def deleteChunk (cache : DocCache) (docId : Nat) (chunkId : LseqId)
    (userId time : Nat) : Option DeleteOut × DocCache :=
  match cache docId with
  | none => (none, cache)
  | some doc =>
    match deleteChunkCore doc chunkId userId time with
    | none => (none, cache)
    | some .alreadyDeleted => (some .alreadyDeleted, cache)
    | some (.ok v i t c doc2) => (some (.ok v i t c doc2), cacheSet cache docId doc2)

/-- Outcome of `trimChunk`. -/
inductive TrimOut where
  | alreadyDeleted
  | ok (newVersion : List Char) (chunkId : LseqId)
      (deletedText remainingText content : List Char) (doc : Doc)
deriving DecidableEq, Repr

/-- Body of `trimChunk` after the cache read; offsets are raw client
numbers and are only interpreted through `substring` clamping. -/
def trimChunkCore (doc : Doc) (chunkId : LseqId)
    (startOffset endOffset : Int) (userId time : Nat) : Option TrimOut :=
  if doc.status ≠ DOC_STATUS_NORMAL then none
  else
    match findChunkIndex doc.chunks chunkId with
    | none => some .alreadyDeleted
    | some chunkIdx =>
      let originalText := (doc.chunks.getD chunkIdx defaultChunk).text
      let deletedText := jsSubstring originalText startOffset endOffset
      let newText := jsSubstring originalText 0 startOffset ++
        jsSubstring originalText endOffset originalText.length
      let chunks :=
        if newText = [] then
          doc.chunks.take chunkIdx ++ doc.chunks.drop (chunkIdx + 1)
        else
          doc.chunks.set chunkIdx
            ⟨(doc.chunks.getD chunkIdx defaultChunk).id, newText⟩
      some (.ok (incrementLogVersion doc.snapshotVersion) chunkId deletedText
        newText (chunksToContent chunks)
        { doc with
            chunks := chunks
            content := chunksToContent chunks
            logMetadata := doc.logMetadata ++
              [OpEntry.trim chunkId startOffset endOffset deletedText newText
                userId time]
            snapshotVersion := incrementLogVersion doc.snapshotVersion })

/-- `trimChunk(docId, chunkId, startOffset, endOffset, userId)`. -/
def trimChunk (cache : DocCache) (docId : Nat) (chunkId : LseqId)
    (startOffset endOffset : Int) (userId time : Nat) :
    Option TrimOut × DocCache :=
  match cache docId with
  | none => (none, cache)
  | some doc =>
    match trimChunkCore doc chunkId startOffset endOffset userId time with
    | none => (none, cache)
    | some .alreadyDeleted => (some .alreadyDeleted, cache)
    | some (.ok v i t rt c doc2) =>
      (some (.ok v i t rt c doc2), cacheSet cache docId doc2)

/-- One successful dispatcher mutation on a cached document (the four
`editDoc`/`editDocBatch` primitives; `alreadyDeleted` and `null` outcomes
do not change the record and are not steps). -/
inductive DocStep : Doc → Doc → Prop where
  | insertText (rand : Nat → Nat → Nat) (leftId rightId : Option LseqId)
      (text : List Char) (userId time : Nat) (r : InsertResult) {d d' : Doc} :
      insertTextCore rand d leftId rightId text userId time = some (r, d') →
      DocStep d d'
  | splitIns (rand1 rand2 : Nat → Nat → Nat) (targetId : LseqId)
      (offset : Int) (text : List Char) (userId time : Nat)
      (r : SplitResult) {d d' : Doc} :
      splitAndInsertCore rand1 rand2 d targetId offset text userId time =
        some (r, d') →
      DocStep d d'
  | delChunk (chunkId : LseqId) (userId time : Nat) (v : List Char)
      (i : LseqId) (t c : List Char) {d d' : Doc} :
      deleteChunkCore d chunkId userId time = some (.ok v i t c d') →
      DocStep d d'
  | trimC (chunkId : LseqId) (s e : Int) (userId time : Nat) (v : List Char)
      (i : LseqId) (t rt c : List Char) {d d' : Doc} :
      trimChunkCore d chunkId s e userId time = some (.ok v i t rt c d') →
      DocStep d d'

/-- Reflexive-transitive closure of `DocStep`. -/
inductive DocSteps : Doc → Doc → Prop where
  | refl (d : Doc) : DocSteps d d
  | tail {d₁ d₂ d₃ : Doc} : DocSteps d₁ d₂ → DocStep d₂ d₃ → DocSteps d₁ d₃

/-! ### Durable store adapter: sync and snapshot -/

/-- The `document_data` row fields written by the core. -/
structure StoredDoc where
  content : List Char
  charsData : List Chunk
  logMetadata : List OpEntry
  snapshotVersion : List Char
  status : Nat
deriving DecidableEq, Repr

/-- `syncDocToSupabase(docId)`: `some row` is the row written through,
`none` means the durable store was left unchanged (cache miss, missing or
deleted row, or cached version not strictly newer). -/
def syncDocToSupabase (cached : Option Doc) (stored : Option StoredDoc) :
    Option StoredDoc :=
  match cached with
  | none => none
  | some c =>
    match stored with
    | none => none
    | some s =>
      if s.status = DOC_STATUS_DELETED then none
      else if 0 < compareVersion c.snapshotVersion s.snapshotVersion then
        some
          { s with
              content := c.content
              charsData := c.chunks.map fun ch => ⟨ch.id, ch.text⟩
              logMetadata := c.logMetadata
              snapshotVersion := c.snapshotVersion }
      else none

/-- `createSnapshot(docId)`: `none` models the thrown error (cache miss or
missing durable row); otherwise the new version, the written durable row
and the refreshed cache record.  Note there is no version comparison: the
write is unconditional on a cache hit. -/
def createSnapshot (cached : Option Doc) (stored : Option StoredDoc) :
    Option (List Char × StoredDoc × Doc) :=
  match cached with
  | none => none
  | some c =>
    match stored with
    | none => none
    | some s =>
      some (incrementSnapshotVersion c.snapshotVersion,
        { s with
            content := chunksToContent c.chunks
            charsData := c.chunks.map fun ch => ⟨ch.id, ch.text⟩
            logMetadata := []
            snapshotVersion := incrementSnapshotVersion c.snapshotVersion },
        { c with
            content := chunksToContent c.chunks
            chunks := c.chunks.map fun ch => ⟨ch.id, ch.text⟩
            logMetadata := []
            snapshotVersion := incrementSnapshotVersion c.snapshotVersion
            status := s.status })

/-! ### Edit dispatcher (`editDoc` / `editDocBatch` handlers) -/

/-- A websocket session: verified user plus current channel/doc rooms. -/
structure Sess where
  userId : Nat
  currentChannel : Option Nat
  currentDoc : Option Nat
deriving DecidableEq, Repr

/-- A client chunk reference: a plain chunk id, or the virtual
per-character id `"<chunkId>:<i>"` recognised by `deleteCharFromDoc`. -/
inductive ChunkRef where
  | chunk (id : LseqId)
  | charAt (id : LseqId) (offset : Nat)
deriving DecidableEq, Repr

/-- A validated `editDoc` intent (`insert` needs a 1-character value,
checked by the handler). -/
inductive EditIntent where
  | insert (leftId rightId : Option LseqId) (value : List Char)
  | delete (id : ChunkRef)
deriving DecidableEq, Repr

/-- The reply the `editDoc` handler sends to the originator. -/
inductive EditDocReply where
  | sysMsg
  | editRejected
  | docOpInsert (id : LseqId) (value : List Char) (logVersion : List Char)
  | docOpDelete (logVersion : List Char)
  | deleteIgnored
deriving DecidableEq, Repr

/-- `isDocEditable(docId)`. -/
def isDocEditable (cache : DocCache) (docId : Nat) : Bool :=
  match cache docId with
  | none => false
  | some doc => doc.status = DOC_STATUS_NORMAL

/-- Unified `deleteCharFromDoc` outcome as the handler reads it. -/
inductive EditDelResult where
  | alreadyDeleted
  | ok (newVersion : List Char)
deriving DecidableEq, Repr

/-- `deleteCharFromDoc(docId, charId, userId)`: virtual `"id:offset"`
references trim one character, plain ids delete the chunk. -/
def deleteCharFromDoc (cache : DocCache) (docId : Nat) (charId : ChunkRef)
    (userId time : Nat) : Option EditDelResult × DocCache :=
  match charId with
  | .charAt chunkId offset =>
    match trimChunk cache docId chunkId offset (offset + 1) userId time with
    | (none, cache2) => (none, cache2)
    | (some .alreadyDeleted, cache2) => (some .alreadyDeleted, cache2)
    | (some (.ok v _ _ _ _ _), cache2) => (some (.ok v), cache2)
  | .chunk chunkId =>
    match deleteChunk cache docId chunkId userId time with
    | (none, cache2) => (none, cache2)
    | (some .alreadyDeleted, cache2) => (some .alreadyDeleted, cache2)
    | (some (.ok v _ _ _ _), cache2) => (some (.ok v), cache2)

/-- `handleEditDoc`: the missing-field and intent-string validations are
enforced by the request types; the remaining pipeline (viewing check,
`isDocEditable`, mutation, broadcast payload) is modelled verbatim. -/
def handleEditDoc (rand : Nat → Nat → Nat) (ws : Sess) (cache : DocCache)
    (docId : Nat) (intent : EditIntent) (time : Nat) :
    EditDocReply × DocCache :=
  if ws.currentDoc ≠ some docId then (.sysMsg, cache)
  else if ¬ isDocEditable cache docId then (.editRejected, cache)
  else
    match intent with
    | .insert leftId rightId value =>
      if value.length ≠ 1 then (.sysMsg, cache)
      else
        match insertTextToDoc rand cache docId leftId rightId value
            ws.userId time with
        | (none, cache2) => (.sysMsg, cache2)
        | (some r, cache2) => (.docOpInsert r.newId value r.newVersion, cache2)
    | .delete ref =>
      match deleteCharFromDoc cache docId ref ws.userId time with
      | (none, cache2) => (.sysMsg, cache2)
      | (some .alreadyDeleted, cache2) => (.deleteIgnored, cache2)
      | (some (.ok v), cache2) => (.docOpDelete v, cache2)

/-- A batch operand id: a real id string or a `temp_N` placeholder. -/
inductive BatchId where
  | real (id : LseqId)
  | temp (n : Nat)
deriving DecidableEq, Repr

/-- The `op.intent` strings of `editDocBatch` case 3 (`other` covers
unrecognised strings, which the loop skips). -/
inductive BatchOpIntent where
  | insertI
  | insertTextI
  | deleteI
  | deleteRangeI
  | other
deriving DecidableEq, Repr

/-- One element of the `operations` array. -/
structure BatchOp where
  intent : BatchOpIntent
  text : Option (List Char)
  value : Option (List Char)
  targetId : Option BatchId
  offset : Option Int
  leftId : Option BatchId
  rightId : Option BatchId
  id : Option BatchId
  startOffset : Option Int
  endOffset : Option Int
  ids : List BatchId
deriving DecidableEq, Repr

/-- `resolveTempId`: `temp_N` resolves through the map (or `null`), other
ids pass through, absent ids are `null`. -/
def resolveTempId (tmap : List (Nat × LseqId)) : Option BatchId → Option LseqId
  | none => none
  | some (.real id) => some id
  | some (.temp n) => tmap.lookup n

/-- One entry of the `results` array broadcast by case 3 (and, in the
same shape, by cases 1 and 2). -/
inductive BatchRes where
  | ins (isSplit : Bool) (id : LseqId) (text : List Char)
      (splitResult : Option (List Chunk))
  | del (id : LseqId) (text : List Char)
deriving DecidableEq, Repr

/-- Inner loop of the `deleteRange` intent. -/
def runDeleteRange (docId userId time : Nat) (tmap : List (Nat × LseqId)) :
    List BatchId → DocCache → List BatchRes → Option (List Char) →
    DocCache × List BatchRes × Option (List Char)
  | [], cache, results, lastVersion => (cache, results, lastVersion)
  | delId :: rest, cache, results, lastVersion =>
    match resolveTempId tmap (some delId) with
    | none => runDeleteRange docId userId time tmap rest cache results lastVersion
    | some rid =>
      match deleteChunk cache docId rid userId time with
      | (some (.ok v _ t _ _), cache2) =>
        runDeleteRange docId userId time tmap rest cache2
          (results ++ [.del rid t]) (some v)
      | (_, cache2) =>
        runDeleteRange docId userId time tmap rest cache2 results lastVersion

/-- The case-3 loop over `operations`: index `i`, the `temp_N` map, the
accumulated `results` and `lastVersion`.  `rands i k` are the draws of the
`k`-th `generateLseqBetween` call of operation `i`. -/
def runBatchOps (rands : Nat → Nat → Nat → Nat → Nat)
    (docId userId time : Nat) :
    List BatchOp → Nat → DocCache → List (Nat × LseqId) → List BatchRes →
    Option (List Char) → DocCache × List BatchRes × Option (List Char)
  | [], _, cache, _, results, lastVersion => (cache, results, lastVersion)
  | op :: rest, i, cache, tmap, results, lastVersion =>
    match op.intent with
    | .insertI | .insertTextI =>
      match (match op.text with
             | some t => if t = [] then op.value else some t
             | none => op.value) with
      | none =>
        runBatchOps rands docId userId time rest (i + 1) cache tmap results
          lastVersion
      | some text =>
        if text = [] then
          runBatchOps rands docId userId time rest (i + 1) cache tmap results
            lastVersion
        else
          match op.targetId, op.offset with
          | some tid, some off =>
            match splitAndInsert (rands i 0) (rands i 1) cache docId
                ((resolveTempId tmap (some tid)).getD []) off text userId
                time with
            | (none, cache2) =>
              runBatchOps rands docId userId time rest (i + 1) cache2 tmap
                results lastVersion
            | (some r, cache2) =>
              runBatchOps rands docId userId time rest (i + 1) cache2
                ((i, r.newId) :: tmap)
                (results ++ [.ins true r.newId text (some r.splitResult)])
                (some r.newVersion)
          | _, _ =>
            match insertTextToDoc (rands i 0) cache docId
                (resolveTempId tmap op.leftId)
                (resolveTempId tmap op.rightId) text userId time with
            | (none, cache2) =>
              runBatchOps rands docId userId time rest (i + 1) cache2 tmap
                results lastVersion
            | (some r, cache2) =>
              runBatchOps rands docId userId time rest (i + 1) cache2
                ((i, r.newId) :: tmap)
                (results ++ [.ins op.targetId.isSome r.newId text none])
                (some r.newVersion)
    | .deleteI =>
      match resolveTempId tmap op.id with
      | none =>
        runBatchOps rands docId userId time rest (i + 1) cache tmap results
          lastVersion
      | some rid =>
        match op.startOffset, op.endOffset with
        | some s, some e =>
          match trimChunk cache docId rid s e userId time with
          | (some (.ok v _ t _ _ _), cache2) =>
            runBatchOps rands docId userId time rest (i + 1) cache2 tmap
              (results ++ [.del rid t]) (some v)
          | (_, cache2) =>
            runBatchOps rands docId userId time rest (i + 1) cache2 tmap
              results lastVersion
        | _, _ =>
          match deleteChunk cache docId rid userId time with
          | (some (.ok v _ t _ _), cache2) =>
            runBatchOps rands docId userId time rest (i + 1) cache2 tmap
              (results ++ [.del rid t]) (some v)
          | (_, cache2) =>
            runBatchOps rands docId userId time rest (i + 1) cache2 tmap
              results lastVersion
    | .deleteRangeI =>
      match runDeleteRange docId userId time tmap op.ids cache results
          lastVersion with
      | (cache2, results2, lastVersion2) =>
        runBatchOps rands docId userId time rest (i + 1) cache2 tmap results2
          lastVersion2
    | .other =>
      runBatchOps rands docId userId time rest (i + 1) cache tmap results
        lastVersion

/-- An `editDocBatch` request envelope. -/
structure BatchReq where
  docId : Nat
  text : Option (List Char)
  targetId : Option LseqId
  offset : Option Int
  leftId : Option LseqId
  rightId : Option LseqId
  operations : Option (List BatchOp)
deriving DecidableEq, Repr

/-- The reply the `editDocBatch` handler sends. -/
inductive BatchReply where
  | sysMsg
  | editRejected
  | opBatch (results : List BatchRes) (logVersion : Option (List Char))
deriving DecidableEq, Repr

/-- Case 3 of `handleEditDocBatch`. -/
def batchCase3 (rands : Nat → Nat → Nat → Nat → Nat) (ws : Sess)
    (cache : DocCache) (req : BatchReq) (time : Nat) :
    BatchReply × DocCache :=
  match req.operations with
  | none => (.sysMsg, cache)
  | some [] => (.sysMsg, cache)
  | some ops =>
    match runBatchOps rands req.docId ws.userId time ops 0 cache [] []
        none with
    | (cache2, [], _) => (.sysMsg, cache2)
    | (cache2, results, lastVersion) => (.opBatch results lastVersion, cache2)

/-- Cases 2 and 3 of `handleEditDocBatch` (reached when case 1 does not
match). -/
def batchCase2 (rands : Nat → Nat → Nat → Nat → Nat) (ws : Sess)
    (cache : DocCache) (req : BatchReq) (time : Nat) :
    BatchReply × DocCache :=
  match req.text with
  | some t =>
    if t = [] then batchCase3 rands ws cache req time
    else
      match insertTextToDoc (rands 0 0) cache req.docId req.leftId
          req.rightId t ws.userId time with
      | (none, cache2) => (.sysMsg, cache2)
      | (some r, cache2) =>
        (.opBatch [.ins false r.newId t none] (some r.newVersion), cache2)
  | none => batchCase3 rands ws cache req time

/-- `handleEditDocBatch`: validation prefix, then the three body cases
(in-chunk split insert; bulk inter-chunk insert; `operations` loop). -/
def handleEditDocBatch (rands : Nat → Nat → Nat → Nat → Nat) (ws : Sess)
    (cache : DocCache) (req : BatchReq) (time : Nat) :
    BatchReply × DocCache :=
  if ws.currentDoc ≠ some req.docId then (.sysMsg, cache)
  else if ¬ isDocEditable cache req.docId then (.editRejected, cache)
  else
    match req.text, req.targetId, req.offset with
    | some t, some tid, some off =>
      if t = [] then batchCase2 rands ws cache req time
      else
        match splitAndInsert (rands 0 0) (rands 0 1) cache req.docId tid off
            t ws.userId time with
        | (none, cache2) => (.sysMsg, cache2)
        | (some r, cache2) =>
          (.opBatch [.ins true r.newId t (some r.splitResult)]
            (some r.newVersion), cache2)
    | _, _, _ => batchCase2 rands ws cache req time

/-- `setDocStatus` effect on the cache (`updateDocCache` is a no-op on a
cache miss); the broadcast is outside the state model. -/
def setDocStatusCache (cache : DocCache) (docId status : Nat) : DocCache :=
  match cache docId with
  | none => cache
  | some doc => cacheSet cache docId { doc with status := status }

/-- `lockDoc` cache effect. -/
def lockDocCache (cache : DocCache) (docId : Nat) : DocCache :=
  setDocStatusCache cache docId DOC_STATUS_LOCKED

/-- `unlockDoc` cache effect. -/
def unlockDocCache (cache : DocCache) (docId : Nat) : DocCache :=
  setDocStatusCache cache docId DOC_STATUS_NORMAL

/-! ### Session registry (`channelConnections` / `docConnections`) -/

/-- Process-wide registry state: per-session fields plus the two reverse
indexes (`Map<id, Set<ws>>`; sets are duplicate-free lists of session
ids, and the emptied-set `Map.delete` is invisible to membership). -/
structure RegState where
  sess : Nat → Sess
  channelConns : Nat → List Nat
  docConns : Nat → List Nat

def updSess (st : RegState) (sid : Nat) (f : Sess → Sess) : RegState :=
  { st with sess := fun i => if i = sid then f (st.sess i) else st.sess i }

/-- `addToChannel(channelId, ws)`. -/
def addToChannel (st : RegState) (channelId sid : Nat) : RegState :=
  let st1 :=
    { st with
        channelConns := fun c =>
          if c = channelId then
            if sid ∈ st.channelConns c then st.channelConns c
            else sid :: st.channelConns c
          else st.channelConns c }
  updSess st1 sid fun s => { s with currentChannel := some channelId }

/-- `removeFromChannel(channelId, ws)`. -/
def removeFromChannel (st : RegState) (channelId sid : Nat) : RegState :=
  let st1 :=
    { st with
        channelConns := fun c =>
          if c = channelId then (st.channelConns c).filter (· ≠ sid)
          else st.channelConns c }
  updSess st1 sid fun s =>
    if s.currentChannel = some channelId then { s with currentChannel := none }
    else s

/-- `addToDoc(docId, ws)`. -/
def addToDoc (st : RegState) (docId sid : Nat) : RegState :=
  let st1 :=
    { st with
        docConns := fun d =>
          if d = docId then
            if sid ∈ st.docConns d then st.docConns d
            else sid :: st.docConns d
          else st.docConns d }
  updSess st1 sid fun s => { s with currentDoc := some docId }

/-- `removeFromDoc(docId, ws)`. -/
def removeFromDoc (st : RegState) (docId sid : Nat) : RegState :=
  let st1 :=
    { st with
        docConns := fun d =>
          if d = docId then (st.docConns d).filter (· ≠ sid)
          else st.docConns d }
  updSess st1 sid fun s =>
    if s.currentDoc = some docId then { s with currentDoc := none } else s

/-- Registry effect of `handleEnterChannel`; `channelOk` is the oracle for
"channel exists, is live, and the user is a member" (the DB lookup).  Note
the source switches channels without leaving the current doc. -/
def handleEnterChannelReg (st : RegState) (sid channelId : Nat)
    (channelOk : Bool) : RegState :=
  let st1 :=
    match (st.sess sid).currentChannel with
    | some prev => if prev ≠ channelId then removeFromChannel st prev sid else st
    | none => st
  if channelOk then addToChannel st1 channelId sid else st1

/-- Registry effect of `handleEnterDoc`; `docInfo` is the cached-document
oracle `(doc.channelId, doc.status)`. -/
def handleEnterDocReg (st : RegState) (sid channelId docId : Nat)
    (docInfo : Option (Nat × Nat)) : RegState :=
  if (st.sess sid).currentChannel ≠ some channelId then st
  else
    let st1 :=
      match (st.sess sid).currentDoc with
      | some prevDoc =>
        if prevDoc ≠ docId then removeFromDoc st prevDoc sid else st
      | none => st
    match docInfo with
    | none => st1
    | some (docChannel, status) =>
      if docChannel ≠ channelId then st1
      else if status = DOC_STATUS_DELETED then st1
      else addToDoc st1 docId sid

/-- Registry effect of `handleLeaveChannel` (doc room first, then the
channel room). -/
def handleLeaveChannelReg (st : RegState) (sid : Nat)
    (channelId : Option Nat) : RegState :=
  match (match channelId with
         | some c => some c
         | none => (st.sess sid).currentChannel) with
  | none => st
  | some target =>
    let st1 :=
      match (st.sess sid).currentDoc with
      | some d => removeFromDoc st d sid
      | none => st
    removeFromChannel st1 target sid

/-- Registry effect of `handleLeaveDoc`. -/
def handleLeaveDocReg (st : RegState) (sid : Nat) (docId : Option Nat) :
    RegState :=
  match (match docId with
         | some d => some d
         | none => (st.sess sid).currentDoc) with
  | none => st
  | some target => removeFromDoc st target sid

/-- Registry effect of the `close` handler (both ids are read before any
removal). -/
def handleDisconnectReg (st : RegState) (sid : Nat) : RegState :=
  let st1 :=
    match (st.sess sid).currentDoc with
    | some d => removeFromDoc st d sid
    | none => st
  match (st.sess sid).currentChannel with
  | some c => removeFromChannel st1 c sid
  | none => st1

/-- The spec's session invariant: a session viewing a doc is in that
doc's channel. -/
def SessionChannelInv (st : RegState) (docChannel : Nat → Nat)
    (sid : Nat) : Prop :=
  ∀ d, (st.sess sid).currentDoc = some d →
    (st.sess sid).currentChannel = some (docChannel d)

/-! ## Order lemmas for `compareLseq` -/

theorem compareLseq_cases (a b : LseqId) :
    compareLseq a b = -1 ∨ compareLseq a b = 0 ∨ compareLseq a b = 1 := by
  induction a generalizing b with
  | nil => cases b <;> simp [compareLseq]
  | cons x as ih =>
    cases b with
    | nil => simp [compareLseq]
    | cons y bs =>
      by_cases h1 : x < y
      · simp [compareLseq, h1]
      · by_cases h2 : y < x
        · simp [compareLseq, h1, h2]
        · simpa [compareLseq, h1, h2] using ih bs

theorem compareLseq_eq_zero_iff (a b : LseqId) :
    compareLseq a b = 0 ↔ a = b := by
  induction a generalizing b with
  | nil => cases b <;> simp [compareLseq]
  | cons x as ih =>
    cases b with
    | nil => simp [compareLseq]
    | cons y bs =>
      by_cases h1 : x < y
      · simp [compareLseq, h1]
        omega
      · by_cases h2 : y < x
        · simp [compareLseq, h1, h2]
          omega
        · have hxy : x = y := by omega
          simp [compareLseq, h1, h2, hxy, ih bs]

theorem compareLseq_self (a : LseqId) : compareLseq a a = 0 :=
  (compareLseq_eq_zero_iff a a).mpr rfl

theorem compareLseq_neg_iff_pos (a b : LseqId) :
    compareLseq a b = -1 ↔ compareLseq b a = 1 := by
  induction a generalizing b with
  | nil => cases b <;> simp [compareLseq]
  | cons x as ih =>
    cases b with
    | nil => simp [compareLseq]
    | cons y bs =>
      by_cases h1 : x < y
      · have h2 : ¬ y < x := by omega
        simp [compareLseq, h1, h2]
      · by_cases h2 : y < x
        · simp [compareLseq, h1, h2]
        · simp [compareLseq, h1, h2, ih bs]

theorem compareLseq_lt_iff (a b : LseqId) :
    compareLseq a b < 0 ↔ compareLseq a b = -1 := by
  rcases compareLseq_cases a b with h | h | h <;> rw [h] <;> simp

theorem compareLseq_trans (a b c : LseqId) :
    compareLseq a b = -1 → compareLseq b c = -1 → compareLseq a c = -1 := by
  induction a generalizing b c with
  | nil =>
    intro hab hbc
    cases b with
    | nil => simp [compareLseq] at hab
    | cons y bs =>
      cases c with
      | nil => simp [compareLseq] at hbc
      | cons z cs => simp [compareLseq]
  | cons x as ih =>
    intro hab hbc
    cases b with
    | nil => simp [compareLseq] at hab
    | cons y bs =>
      cases c with
      | nil => simp [compareLseq] at hbc
      | cons z cs =>
        by_cases hxy : x < y
        · by_cases hyz : y < z
          · have hxz : x < z := by omega
            simp [compareLseq, hxz]
          · by_cases hzy : z < y
            · simp [compareLseq, hzy] at hbc
              omega
            · have hyz2 : y = z := by omega
              have hxz : x < z := by omega
              simp [compareLseq, hxz]
        · by_cases hyx : y < x
          · simp [compareLseq, hxy, hyx] at hab
          · have hxy2 : x = y := by omega
            by_cases hyz : y < z
            · have hxz : x < z := by omega
              simp [compareLseq, hxz]
            · by_cases hzy : z < y
              · simp [compareLseq, hyz, hzy] at hbc
              · have hyz2 : y = z := by omega
                have hxz : ¬ x < z := by omega
                have hzx : ¬ z < x := by omega
                simp [compareLseq, hxy, hyx] at hab
                simp [compareLseq, hyz, hzy] at hbc
                simp [compareLseq, hxz, hzx]
                exact ih bs cs hab hbc

/-! ## The LSEQ allocator loop -/

theorem genGo_ne_nil (rand : Nat → Nat → Nat) (depth : Nat)
    (left right : List Nat) : genGo rand depth left right ≠ [] := by
  rw [genGo]
  split <;> simp

/-- The allocator output is strictly above the left neighbor, for every
left neighbor and every draw. -/
theorem genGo_gt_left (rand : Nat → Nat → Nat) :
    ∀ (left right : List Nat) (depth : Nat),
      compareLseq left (genGo rand depth left right) = -1 := by
  intro left
  induction left with
  | nil =>
    intro right depth
    rw [genGo]
    split <;> simp [compareLseq]
  | cons lh lt ih =>
    intro right depth
    rw [genGo]
    simp only [List.headD_cons, List.tail_cons]
    split
    · simp only [compareLseq]
      split
      · rfl
      · exfalso; omega
    · simp only [compareLseq, Nat.lt_irrefl, if_false]
      exact ih right.tail (depth + 1)

/-- The allocator output is strictly below the right neighbor, provided
the right neighbor has positive components, the left neighbor is below
the right one, and every draw is in range. -/
theorem genGo_lt_right (rand : Nat → Nat → Nat)
    (hrand : ∀ d g, 0 < g → rand d g < g) :
    ∀ (right left : List Nat) (depth : Nat), (∀ x ∈ right, 1 ≤ x) →
      compareLseq left right = -1 →
      compareLseq (genGo rand depth left right) right = -1 := by
  intro right
  induction right with
  | nil =>
    intro left depth _ hlr
    cases left <;> simp [compareLseq] at hlr
  | cons rh rt ih =>
    intro left depth hwf hlr
    rw [genGo]
    cases left with
    | nil =>
      simp only [List.headD_cons, List.headD_nil, List.tail_cons,
        List.tail_nil]
      by_cases hgap : 1 < rh - 0
      · rw [if_pos hgap]
        have hb : rand depth (rh - 0 - 1) < rh - 0 - 1 :=
          hrand _ _ (by omega)
        simp only [compareLseq]
        split
        · rfl
        · exfalso; omega
      · rw [if_neg hgap]
        have h0 : 0 < rh := hwf rh (by simp)
        simp [compareLseq, h0]
    | cons lh lt =>
      simp only [List.headD_cons, List.tail_cons]
      by_cases hxy : lh < rh
      · by_cases hgap : 1 < rh - lh
        · rw [if_pos hgap]
          have hb : rand depth (rh - lh - 1) < rh - lh - 1 :=
            hrand _ _ (by omega)
          simp only [compareLseq]
          split
          · rfl
          · exfalso; omega
        · rw [if_neg hgap]
          simp [compareLseq, hxy]
      · by_cases hyx : rh < lh
        · simp [compareLseq, hxy, hyx] at hlr
        · have hee : lh = rh := by omega
          have hgap : ¬ 1 < rh - lh := by omega
          rw [if_neg hgap]
          subst hee
          simp only [compareLseq, Nat.lt_irrefl, if_false]
          apply ih lt (depth + 1)
          · intro x hx
            exact hwf x (by simp [hx])
          · simpa [compareLseq] using hlr

/-- Fuel-indexed form of the component-bound lemma for `genGo`. -/
theorem genGo_components_aux (rand : Nat → Nat → Nat)
    (hrand : ∀ d g, 0 < g → rand d g < g) :
    ∀ (n : Nat) (left right : List Nat) (depth : Nat),
      left.length + right.length ≤ n →
      (∀ x ∈ left, x ≤ LSEQ_MAX) → (∀ x ∈ right, x ≤ LSEQ_MAX) →
      (∀ x ∈ genGo rand depth left right, x ≤ LSEQ_MAX) ∧
        1 ≤ (genGo rand depth left right).getLastD 0 := by
  intro n
  induction n with
  | zero =>
    intro left right depth hlen hwl hwr
    have hl : left = [] := by
      cases left with
      | nil => rfl
      | cons a l => simp at hlen
    have hr : right = [] := by
      cases right with
      | nil => rfl
      | cons a l => simp at hlen
    subst hl; subst hr
    rw [genGo]
    have hgap : 1 < ([] : List Nat).headD (LSEQ_MAX + 1) -
        ([] : List Nat).headD 0 := by simp [LSEQ_MAX]
    rw [if_pos hgap]
    have hb := hrand depth
      (([] : List Nat).headD (LSEQ_MAX + 1) - ([] : List Nat).headD 0 - 1)
      (by simp [LSEQ_MAX])
    constructor
    · intro x hx
      simp only [List.mem_singleton] at hx
      subst hx
      simp only [List.headD_nil] at hb ⊢
      simp [LSEQ_MAX] at hb ⊢
      omega
    · simp
  | succ n ihn =>
    intro left right depth hlen hwl hwr
    rw [genGo]
    split
    · rename_i hgap
      constructor
      · intro x hx
        simp only [List.mem_singleton] at hx
        subst hx
        have hr : right.headD (LSEQ_MAX + 1) ≤ LSEQ_MAX + 1 := by
          cases right with
          | nil => simp
          | cons rh rt =>
            have := hwr rh (by simp)
            simp only [List.headD_cons]
            omega
        have hb := hrand depth
          (right.headD (LSEQ_MAX + 1) - left.headD 0 - 1) (by omega)
        omega
      · simp
        omega
    · rename_i hgap
      have hdec : left.tail.length + right.tail.length ≤ n := by
        by_cases hl : left = []
        · by_cases hr : right = []
          · exfalso
            subst hl; subst hr
            simp [LSEQ_MAX] at hgap
          · cases right with
            | nil => exact absurd rfl hr
            | cons a l =>
              subst hl
              simp at hlen ⊢
              omega
        · cases left with
          | nil => exact absurd rfl hl
          | cons a l =>
            cases right with
            | nil => simp at hlen ⊢; omega
            | cons b m => simp at hlen ⊢; omega
      have ihr := ihn left.tail right.tail (depth + 1) hdec
        (fun x hx => hwl x (List.mem_of_mem_tail hx))
        (fun x hx => hwr x (List.mem_of_mem_tail hx))
      constructor
      · intro x hx
        rcases List.mem_cons.mp hx with hx | hx
        · subst hx
          cases left with
          | nil => simp [LSEQ_MAX]
          | cons lh lt => simpa using hwl lh (by simp)
        · exact ihr.1 x hx
      · rw [List.getLastD_cons]
        have hne2 := genGo_ne_nil rand (depth + 1) left.tail right.tail
        rcases hx : genGo rand (depth + 1) left.tail right.tail with
          _ | ⟨g, gs⟩
        · exact absurd hx hne2
        · rw [hx] at ihr
          simpa using ihr.2

/-- Component bounds of the allocator output: every component is at most
65535 (the right sentinel 65536 is never emitted), the result is
nonempty, and its final component is positive. -/
theorem genGo_components (rand : Nat → Nat → Nat)
    (hrand : ∀ d g, 0 < g → rand d g < g) (left right : List Nat)
    (depth : Nat) (hwl : ∀ x ∈ left, x ≤ LSEQ_MAX)
    (hwr : ∀ x ∈ right, x ≤ LSEQ_MAX) :
    (∀ x ∈ genGo rand depth left right, x ≤ LSEQ_MAX) ∧
      1 ≤ (genGo rand depth left right).getLastD 0 :=
  genGo_components_aux rand hrand (left.length + right.length) left right
    depth (Nat.le_refl _) hwl hwr

/-- **C3**: LSEQ strict betweenness.  For ids `L < R` (components in
`[1, 65535]`) and any in-range draws, `generateLseqBetween` returns an id
strictly between them; with only a right neighbor the result is strictly
below it; with only a left neighbor strictly above it; with no neighbors
a nonempty singleton with component in `[1, 65535]`.  The loop is total:
`genGo` is a terminating function of its inputs. -/
theorem generateLseqBetween_strict (rand : Nat → Nat → Nat)
    (hrand : ∀ d g, 0 < g → rand d g < g) :
    (∀ L R : LseqId, ValidComponents L → ValidComponents R →
      compareLseq L R = -1 →
      compareLseq L (generateLseqBetween (some L) (some R) rand) = -1 ∧
        compareLseq (generateLseqBetween (some L) (some R) rand) R = -1) ∧
    (∀ R : LseqId, ValidComponents R → R ≠ [] →
      compareLseq (generateLseqBetween none (some R) rand) R = -1) ∧
    (∀ L : LseqId,
      compareLseq L (generateLseqBetween (some L) none rand) = -1) ∧
    ((generateLseqBetween none none rand).length = 1 ∧
      ValidComponents (generateLseqBetween none none rand)) := by
  refine ⟨fun L R hL hR hLR => ⟨genGo_gt_left rand L R 0,
      genGo_lt_right rand hrand R L 0 (fun x hx => (hR x hx).1) hLR⟩,
    fun R hR hne => genGo_lt_right rand hrand R [] 0
      (fun x hx => (hR x hx).1) ?_,
    fun L => genGo_gt_left rand L [] 0, ?_, ?_⟩
  · cases R with
    | nil => exact absurd rfl hne
    | cons a l => simp [compareLseq]
  · have hb := hrand 0 65535 (by omega)
    simp [generateLseqBetween, genGo, LSEQ_MAX]
  · have hb := hrand 0 65535 (by omega)
    intro x hx
    simp [generateLseqBetween, genGo, LSEQ_MAX] at hx
    subst hx
    constructor
    · omega
    · simp only [LSEQ_MAX]
      omega

/-- Witness for C3 at `L = [1]`, `R = [3]` with the zero draw. -/
theorem generateLseqBetween_strict_witness :
    compareLseq [1]
        (generateLseqBetween (some [1]) (some [3]) (fun _ _ => 0)) = -1 ∧
      compareLseq (generateLseqBetween (some [1]) (some [3]) (fun _ _ => 0))
        [3] = -1 :=
  (generateLseqBetween_strict (fun _ _ => 0) (fun _ _ h => h)).1 [1] [3]
    (by decide) (by decide) (by decide)

/-- **C4 counterexample**: starting from allocator outputs only, the
allocator emits the sentinel component `0`.  `between(null, null)` can
return `[2]`, then `between(null, [2])` must return `[1]`, and
`between(null, [1])` then pushes the virtual left component `0` into the
returned id `[0, 1]` — contradicting the claim that every emitted
component lies in `[1, 65535]`. -/
theorem generateLseqBetween_emits_zero :
    generateLseqBetween none none (fun _ _ => 1) = [2] ∧
      generateLseqBetween none (some [2]) (fun _ _ => 0) = [1] ∧
      generateLseqBetween none (some [1]) (fun _ _ => 0) = [0, 1] ∧
      ¬ ValidComponents (generateLseqBetween none (some [1])
        (fun _ _ => 0)) := by
  refine ⟨?_, ?_, ?_, ?_⟩
  · simp [generateLseqBetween, genGo, LSEQ_MAX]
  · simp [generateLseqBetween, genGo, LSEQ_MAX]
  · simp [generateLseqBetween, genGo, LSEQ_MAX]
  · intro h
    have h0 := h 0
    simp [generateLseqBetween, genGo, LSEQ_MAX] at h0

/-- **C4 (amended)**: for well-formed (possibly null) neighbors and
in-range draws, every emitted component is at most 65535 — the right
sentinel 65536 is never emitted — and the final component is in
`[1, 65535]`; but the left sentinel `0` can be emitted as a non-final
component (see the counterexample), exactly when the loop walks past the
left neighbor while the right neighbor still has a component `1`. -/
theorem generateLseqBetween_components (rand : Nat → Nat → Nat)
    (hrand : ∀ d g, 0 < g → rand d g < g) (leftId rightId : Option LseqId)
    (hwl : ValidComponents (leftId.getD []))
    (hwr : ValidComponents (rightId.getD [])) :
    (∀ x ∈ generateLseqBetween leftId rightId rand, x ≤ LSEQ_MAX) ∧
      generateLseqBetween leftId rightId rand ≠ [] ∧
      1 ≤ (generateLseqBetween leftId rightId rand).getLastD 0 := by
  have h := genGo_components rand hrand (leftId.getD []) (rightId.getD []) 0
    (fun x hx => (hwl x hx).2) (fun x hx => (hwr x hx).2)
  exact ⟨h.1, genGo_ne_nil rand 0 _ _, h.2⟩

/-- Witness for the amended C4 at `left = [1]`, `right = [3]`. -/
theorem generateLseqBetween_components_witness :
    (∀ x ∈ generateLseqBetween (some [1]) (some [3]) (fun _ _ => 0),
        x ≤ LSEQ_MAX) ∧
      generateLseqBetween (some [1]) (some [3]) (fun _ _ => 0) ≠ [] ∧
      1 ≤ (generateLseqBetween (some [1]) (some [3])
        (fun _ _ => 0)).getLastD 0 :=
  generateLseqBetween_components (fun _ _ => 0) (fun _ _ h => h)
    (some [1]) (some [3]) (by decide) (by decide)

/-! ## Binary-search characterizations on sorted chunk arrays -/

theorem sorted_getD_lt (chunks : List Chunk) (hs : ChunksSorted chunks)
    {i j : Nat} (hij : i < j) (hj : j < chunks.length) :
    compareLseq (chunks.getD i defaultChunk).id
      (chunks.getD j defaultChunk).id = -1 := by
  have hi : i < chunks.length := lt_trans hij hj
  rw [List.getD_eq_getElem chunks defaultChunk hi,
    List.getD_eq_getElem chunks defaultChunk hj]
  exact List.pairwise_iff_getElem.mp hs i j hi hj hij

theorem findChunkInsertPosGo_spec (chunks : List Chunk) (id : LseqId)
    (hs : ChunksSorted chunks) :
    ∀ (fuel lo hi : Nat), hi - lo ≤ fuel → lo ≤ hi → hi ≤ chunks.length →
      (∀ i < lo, compareLseq (chunks.getD i defaultChunk).id id < 0) →
      (∀ i, hi ≤ i → i < chunks.length →
        ¬ compareLseq (chunks.getD i defaultChunk).id id < 0) →
      lo ≤ findChunkInsertPosGo chunks id lo hi ∧
        findChunkInsertPosGo chunks id lo hi ≤ hi ∧
        (∀ i < findChunkInsertPosGo chunks id lo hi,
          compareLseq (chunks.getD i defaultChunk).id id < 0) ∧
        (∀ i, findChunkInsertPosGo chunks id lo hi ≤ i →
          i < chunks.length →
          ¬ compareLseq (chunks.getD i defaultChunk).id id < 0) := by
  intro fuel
  induction fuel with
  | zero =>
    intro lo hi hfuel hlohi hhi hlow hhigh
    rw [findChunkInsertPosGo, if_neg (by omega)]
    exact ⟨Nat.le_refl _, hlohi, hlow, fun i h1 h2 => hhigh i (by omega) h2⟩
  | succ fuel ih =>
    intro lo hi hfuel hlohi hhi hlow hhigh
    rw [findChunkInsertPosGo]
    by_cases hlh : lo < hi
    · rw [if_pos hlh]
      by_cases hcmp :
          compareLseq (chunks.getD ((lo + hi) / 2) defaultChunk).id id < 0
      · rw [if_pos hcmp]
        have hmidlen : (lo + hi) / 2 < chunks.length := by omega
        have hrec := ih ((lo + hi) / 2 + 1) hi (by omega) (by omega) hhi
          (by
            intro i hi'
            rcases Nat.lt_or_ge i lo with h | h
            · exact hlow i h
            · rcases Nat.lt_or_ge i ((lo + hi) / 2) with h2 | h2
              · have hlt := sorted_getD_lt chunks hs h2 hmidlen
                rw [compareLseq_lt_iff] at hcmp ⊢
                exact compareLseq_trans _ _ _ hlt hcmp
              · have : i = (lo + hi) / 2 := by omega
                rw [this]
                exact hcmp)
          hhigh
        exact ⟨by omega, hrec.2.1, hrec.2.2.1, hrec.2.2.2⟩
      · rw [if_neg hcmp]
        have hrec := ih lo ((lo + hi) / 2) (by omega) (by omega) (by omega)
          hlow
          (by
            intro i h1 h2 hcon
            rcases Nat.lt_or_ge i ((lo + hi) / 2 + 1) with h3 | h3
            · have : i = (lo + hi) / 2 := by omega
              rw [this] at hcon
              exact hcmp hcon
            · have hlt := sorted_getD_lt chunks hs
                (show (lo + hi) / 2 < i by omega) h2
              rw [compareLseq_lt_iff] at hcon
              exact hcmp (by
                rw [compareLseq_lt_iff]
                exact compareLseq_trans _ _ _ hlt hcon))
        exact ⟨hrec.1, by omega, hrec.2.2.1, hrec.2.2.2⟩
    · rw [if_neg hlh]
      exact ⟨Nat.le_refl _, hlohi, hlow, fun i h1 h2 => hhigh i (by omega) h2⟩

theorem findChunkInsertPos_spec (chunks : List Chunk) (id : LseqId)
    (hs : ChunksSorted chunks) :
    findChunkInsertPos chunks id ≤ chunks.length ∧
      (∀ i < findChunkInsertPos chunks id,
        compareLseq (chunks.getD i defaultChunk).id id < 0) ∧
      (∀ i, findChunkInsertPos chunks id ≤ i → i < chunks.length →
        ¬ compareLseq (chunks.getD i defaultChunk).id id < 0) := by
  have h := findChunkInsertPosGo_spec chunks id hs chunks.length 0
    chunks.length (by omega) (by omega) (Nat.le_refl _)
    (fun i hi => absurd hi (Nat.not_lt_zero i))
    (fun i h1 h2 => absurd h2 (by omega))
  exact ⟨h.2.1, h.2.2.1, h.2.2.2⟩

/-- On any array, a position satisfying the lower-bound conditions turns
the splice-with-duplicate-check of `insertChunk` into the linear ordered
insert. -/
theorem splice_spec_eq_orderedInsert (c : Chunk) :
    ∀ (chunks : List Chunk) (pos : Nat), pos ≤ chunks.length →
      (∀ i < pos, compareLseq (chunks.getD i defaultChunk).id c.id < 0) →
      (∀ i, pos ≤ i → i < chunks.length →
        ¬ compareLseq (chunks.getD i defaultChunk).id c.id < 0) →
      orderedInsertCh chunks c =
        (if pos < chunks.length ∧
            compareLseq (chunks.getD pos defaultChunk).id c.id = 0 then
          chunks
        else chunks.take pos ++ c :: chunks.drop pos) := by
  intro chunks
  induction chunks with
  | nil =>
    intro pos hpos hlow hhigh
    have hp0 : pos = 0 := by simpa using hpos
    subst hp0
    simp [orderedInsertCh]
  | cons d cs ih =>
    intro pos hpos hlow hhigh
    cases pos with
    | zero =>
      have h0 := hhigh 0 (Nat.le_refl 0 |>.trans (by omega)) (by simp)
      simp only [List.getD_cons_zero] at h0
      rcases compareLseq_cases d.id c.id with hc | hc | hc
      · exact absurd (by rw [compareLseq_lt_iff]; exact hc) h0
      · have hcond : 0 < (d :: cs).length ∧
            compareLseq ((d :: cs).getD 0 defaultChunk).id c.id = 0 := by
          simp only [List.getD_cons_zero]
          exact ⟨by simp, hc⟩
        rw [if_pos hcond]
        have hid : d.id = c.id := (compareLseq_eq_zero_iff _ _).mp hc
        have hc2 : compareLseq c.id d.id = 0 := by
          rw [hid]; exact compareLseq_self _
        simp [orderedInsertCh, hc2]
      · have hc2 : compareLseq c.id d.id = -1 :=
          (compareLseq_neg_iff_pos _ _).mpr hc
        have hcond : ¬ (0 < (d :: cs).length ∧
            compareLseq ((d :: cs).getD 0 defaultChunk).id c.id = 0) := by
          simp only [List.getD_cons_zero]
          intro hcon
          rw [hcon.2] at hc
          exact absurd hc (by decide)
        rw [if_neg hcond]
        simp [orderedInsertCh, hc2]
    | succ p =>
      have h0 := hlow 0 (Nat.succ_pos p)
      simp only [List.getD_cons_zero] at h0
      rw [compareLseq_lt_iff] at h0
      have hc1 : compareLseq c.id d.id = 1 :=
        (compareLseq_neg_iff_pos _ _).mp h0
      have hne1 : compareLseq c.id d.id ≠ -1 := by rw [hc1]; decide
      have hne0 : compareLseq c.id d.id ≠ 0 := by rw [hc1]; decide
      have ihp := ih p (by simpa using hpos)
        (fun i hi => by
          have := hlow (i + 1) (by omega)
          simpa [List.getD_cons_succ] using this)
        (fun i h1 h2 => by
          have := hhigh (i + 1) (by omega) (by simpa using h2)
          simpa [List.getD_cons_succ] using this)
      have hgoal : orderedInsertCh (d :: cs) c = d :: orderedInsertCh cs c := by
        simp [orderedInsertCh, hne1, hne0]
      rw [hgoal, ihp]
      by_cases hcond : p < cs.length ∧
          compareLseq (cs.getD p defaultChunk).id c.id = 0
      · rw [if_pos hcond, if_pos (by simpa [List.getD_cons_succ] using hcond)]
      · rw [if_neg hcond, if_neg (by simpa [List.getD_cons_succ] using hcond)]
        simp

/-- On a sorted array, `insertChunk` (ignoring the refusal signal) is the
linear ordered insert. -/
theorem insertChunk_eq_orderedInsert (chunks : List Chunk) (c : Chunk)
    (hs : ChunksSorted chunks) :
    insertChunk' chunks c = orderedInsertCh chunks c := by
  have hsp := findChunkInsertPos_spec chunks c.id hs
  rw [splice_spec_eq_orderedInsert c chunks (findChunkInsertPos chunks c.id)
    hsp.1 hsp.2.1 hsp.2.2]
  by_cases hcond : findChunkInsertPos chunks c.id < chunks.length ∧
      compareLseq
        (chunks.getD (findChunkInsertPos chunks c.id) defaultChunk).id
        c.id = 0
  · unfold insertChunk' insertChunk
    rw [if_pos hcond, if_pos hcond]
  · unfold insertChunk' insertChunk
    rw [if_neg hcond, if_neg hcond]

/-! ## Semantics of the chunk operations on sorted arrays -/

theorem lookupText_nil (x : LseqId) : lookupText [] x = none := rfl

theorem lookupText_cons (c : Chunk) (cs : List Chunk) (x : LseqId) :
    lookupText (c :: cs) x =
      if c.id = x then some c.text else lookupText cs x := rfl

theorem lookup_eq_none_of_forall_ne (cs : List Chunk) (x : LseqId)
    (h : ∀ b ∈ cs, b.id ≠ x) : lookupText cs x = none := by
  induction cs with
  | nil => rfl
  | cons c cs ih =>
    rw [lookupText_cons, if_neg (h c (by simp))]
    exact ih fun b hb => h b (by simp [hb])

theorem lookup_isSome_mem (cs : List Chunk) (x : LseqId)
    (h : lookupText cs x ≠ none) : ∃ b ∈ cs, b.id = x := by
  induction cs with
  | nil => exact absurd rfl h
  | cons c cs ih =>
    rw [lookupText] at h
    by_cases hc : c.id = x
    · exact ⟨c, by simp, hc⟩
    · rw [if_neg hc] at h
      obtain ⟨b, hb, hbx⟩ := ih h
      exact ⟨b, by simp [hb], hbx⟩

theorem sorted_cons_head_ne (d : Chunk) (cs : List Chunk)
    (hs : ChunksSorted (d :: cs)) : ∀ b ∈ cs, b.id ≠ d.id := by
  intro b hb he
  have := (List.pairwise_cons.mp hs).1 b hb
  rw [he, compareLseq_self] at this
  exact absurd this (by decide)

theorem sorted_head_lookup_tail (d : Chunk) (cs : List Chunk)
    (hs : ChunksSorted (d :: cs)) : lookupText cs d.id = none :=
  lookup_eq_none_of_forall_ne cs d.id (sorted_cons_head_ne d cs hs)

theorem mem_orderedInsertCh {b : Chunk} {chunks : List Chunk} {c : Chunk}
    (h : b ∈ orderedInsertCh chunks c) : b ∈ chunks ∨ b = c := by
  induction chunks with
  | nil =>
    simp [orderedInsertCh] at h
    exact Or.inr h
  | cons d cs ih =>
    rw [orderedInsertCh] at h
    split at h
    · rcases List.mem_cons.mp h with h | h
      · exact Or.inr h
      · exact Or.inl h
    · split at h
      · exact Or.inl h
      · rcases List.mem_cons.mp h with h | h
        · exact Or.inl (by simp [h])
        · rcases ih h with h | h
          · exact Or.inl (by simp [h])
          · exact Or.inr h

theorem sorted_orderedInsertCh (chunks : List Chunk) (c : Chunk)
    (hs : ChunksSorted chunks) : ChunksSorted (orderedInsertCh chunks c) := by
  induction chunks with
  | nil =>
    rw [orderedInsertCh]
    exact List.pairwise_singleton _ _
  | cons d cs ih =>
    rw [orderedInsertCh]
    have hd := List.pairwise_cons.mp hs
    split
    · rename_i hlt
      refine List.pairwise_cons.mpr ⟨?_, hs⟩
      intro b hb
      rcases List.mem_cons.mp hb with h | h
      · rw [h]; exact hlt
      · exact compareLseq_trans _ _ _ hlt (hd.1 b h)
    · split
      · exact hs
      · rename_i hne1 hne0
        refine List.pairwise_cons.mpr ⟨?_, ih hd.2⟩
        intro b hb
        rcases mem_orderedInsertCh hb with h | h
        · exact hd.1 b h
        · rw [h]
          rcases compareLseq_cases c.id d.id with hc | hc | hc
          · exact absurd hc hne1
          · exact absurd hc hne0
          · exact (compareLseq_neg_iff_pos _ _).mpr hc

theorem lookup_orderedInsertCh (chunks : List Chunk) (c : Chunk)
    (hs : ChunksSorted chunks) (x : LseqId) :
    lookupText (orderedInsertCh chunks c) x =
      if x = c.id then some ((lookupText chunks c.id).getD c.text)
      else lookupText chunks x := by
  induction chunks with
  | nil =>
    rw [orderedInsertCh]
    by_cases hx : x = c.id
    · rw [if_pos hx, lookupText_cons, if_pos hx.symm, lookupText_nil]
      rfl
    · rw [if_neg hx, lookupText_cons, if_neg (fun h => hx h.symm)]
  | cons d cs ih =>
    have hd := List.pairwise_cons.mp hs
    rw [orderedInsertCh]
    split
    · rename_i hlt
      have hcd : c.id ≠ d.id := by
        intro h
        rw [h, compareLseq_self] at hlt
        exact absurd hlt (by decide)
      by_cases hx : x = c.id
      · rw [if_pos hx]
        have hnone : lookupText (d :: cs) c.id = none := by
          rw [lookupText_cons, if_neg (fun h => hcd h.symm)]
          exact lookup_eq_none_of_forall_ne cs c.id fun b hb he => by
            have := compareLseq_trans _ _ _ hlt (hd.1 b hb)
            rw [← he, compareLseq_self] at this
            exact absurd this (by decide)
        rw [hnone, lookupText_cons, if_pos hx.symm]
        rfl
      · rw [if_neg hx, lookupText_cons, if_neg (fun h => hx h.symm)]
    · split
      · rename_i heq hz
        have hid : c.id = d.id := (compareLseq_eq_zero_iff _ _).mp hz
        by_cases hx : x = c.id
        · rw [if_pos hx, lookupText_cons, if_pos (by rw [← hid, ← hx]),
            lookupText_cons, if_pos (by rw [← hid])]
          rfl
        · rw [if_neg hx]
      · rename_i hne1 hne0
        have hcd : c.id ≠ d.id := by
          intro h
          rw [h] at hne0
          exact hne0 (compareLseq_self _)
        by_cases hx : x = c.id
        · rw [if_pos hx, lookupText_cons,
            if_neg (by rw [hx]; exact fun h => hcd h.symm),
            ih hd.2, if_pos hx, lookupText_cons,
            if_neg (fun h => hcd h.symm)]
        · rw [if_neg hx, lookupText_cons]
          by_cases hdx : d.id = x
          · rw [if_pos hdx, lookupText_cons, if_pos hdx]
          · rw [if_neg hdx, ih hd.2, if_neg hx, lookupText_cons,
              if_neg hdx]

/-- Two sorted chunk arrays with the same id-to-text association are
equal. -/
theorem sorted_lookup_ext : ∀ (cs ds : List Chunk), ChunksSorted cs →
    ChunksSorted ds → (∀ x, lookupText cs x = lookupText ds x) → cs = ds := by
  intro cs
  induction cs with
  | nil =>
    intro ds _ hd h
    cases ds with
    | nil => rfl
    | cons b ds' =>
      have := h b.id
      rw [lookupText_nil, lookupText_cons, if_pos rfl] at this
      exact absurd this (by simp)
  | cons a cs' ih =>
    intro ds hc hd h
    cases ds with
    | nil =>
      have := h a.id
      rw [lookupText_cons, lookupText_nil, if_pos rfl] at this
      exact absurd this (by simp)
    | cons b ds' =>
      have hca := List.pairwise_cons.mp hc
      have hdb := List.pairwise_cons.mp hd
      have hab : a.id = b.id := by
        by_contra hne
        have h1 := h a.id
        rw [lookupText_cons, if_pos rfl, lookupText_cons,
          if_neg (fun he => hne he.symm)] at h1
        obtain ⟨u, hu, hux⟩ := lookup_isSome_mem ds' a.id (by rw [← h1]; simp)
        have hba : compareLseq b.id a.id = -1 := by
          have := hdb.1 u hu
          rw [hux] at this
          exact this
        have h2 := h b.id
        rw [lookupText_cons, if_neg hne, lookupText_cons, if_pos rfl] at h2
        obtain ⟨v, hv, hvx⟩ := lookup_isSome_mem cs' b.id (by rw [h2]; simp)
        have hab2 : compareLseq a.id b.id = -1 := by
          have := hca.1 v hv
          rw [hvx] at this
          exact this
        have := compareLseq_trans _ _ _ hab2 hba
        rw [compareLseq_self] at this
        exact absurd this (by decide)
      have htext : a.text = b.text := by
        have h1 := h a.id
        rw [lookupText_cons, if_pos rfl, lookupText_cons, if_pos hab.symm] at h1
        exact Option.some.inj h1
      have hchunk : a = b := by
        cases a; cases b
        simp only at hab htext
        rw [hab, htext]
      subst hchunk
      have htail : ∀ x, lookupText cs' x = lookupText ds' x := by
        intro x
        by_cases hx : x = a.id
        · rw [hx, sorted_head_lookup_tail a cs' hc,
            sorted_head_lookup_tail a ds' hd]
        · have := h x
          rw [lookupText_cons, if_neg (fun he => hx he.symm), lookupText_cons,
            if_neg (fun he => hx he.symm)] at this
          exact this
      rw [ih ds' hca.2 hdb.2 htail]

/-! ## `findChunkIndex` characterization -/

theorem findChunkIndexGo_some_spec (chunks : List Chunk) (id : LseqId) :
    ∀ (fuel : Nat) (lo hi : Int), (hi + 1 - lo).toNat ≤ fuel → 0 ≤ lo →
      hi < (chunks.length : Int) → ∀ i,
      findChunkIndexGo chunks id lo hi = some i →
      i < chunks.length ∧ (chunks.getD i defaultChunk).id = id := by
  intro fuel
  induction fuel with
  | zero =>
    intro lo hi hfuel h0 hlen i h
    rw [findChunkIndexGo, if_neg (by omega)] at h
    cases h
  | succ fuel ih =>
    intro lo hi hfuel h0 hlen i h
    rw [findChunkIndexGo] at h
    by_cases hle : lo ≤ hi
    · rw [if_pos hle] at h
      by_cases hz :
          compareLseq
            (chunks.getD ((lo + hi) / 2).toNat defaultChunk).id id = 0
      · rw [if_pos hz] at h
        have hi2 : i = ((lo + hi) / 2).toNat := (Option.some.inj h).symm
        subst hi2
        refine ⟨by omega, (compareLseq_eq_zero_iff _ _).mp hz⟩
      · rw [if_neg hz] at h
        by_cases hlt :
            compareLseq
              (chunks.getD ((lo + hi) / 2).toNat defaultChunk).id id < 0
        · rw [if_pos hlt] at h
          exact ih ((lo + hi) / 2 + 1) hi (by omega) (by omega) hlen i h
        · rw [if_neg hlt] at h
          exact ih lo ((lo + hi) / 2 - 1) (by omega) h0 (by omega) i h
    · rw [if_neg hle] at h
      cases h

theorem findChunkIndexGo_none_spec (chunks : List Chunk) (id : LseqId)
    (hs : ChunksSorted chunks) :
    ∀ (fuel : Nat) (lo hi : Int), (hi + 1 - lo).toNat ≤ fuel → 0 ≤ lo →
      hi < (chunks.length : Int) →
      (∀ j : Nat, j < chunks.length → (j : Int) < lo →
        compareLseq (chunks.getD j defaultChunk).id id ≠ 0) →
      (∀ j : Nat, j < chunks.length → hi < (j : Int) →
        compareLseq (chunks.getD j defaultChunk).id id ≠ 0) →
      findChunkIndexGo chunks id lo hi = none →
      ∀ j : Nat, j < chunks.length →
        compareLseq (chunks.getD j defaultChunk).id id ≠ 0 := by
  intro fuel
  induction fuel with
  | zero =>
    intro lo hi hfuel h0 hlen hlow hhigh _ j hj
    rcases Int.lt_or_le (j : Int) lo with h | h
    · exact hlow j hj h
    · exact hhigh j hj (by omega)
  | succ fuel ih =>
    intro lo hi hfuel h0 hlen hlow hhigh hnone j hj
    rw [findChunkIndexGo] at hnone
    by_cases hle : lo ≤ hi
    · rw [if_pos hle] at hnone
      by_cases hz :
          compareLseq
            (chunks.getD ((lo + hi) / 2).toNat defaultChunk).id id = 0
      · rw [if_pos hz] at hnone
        cases hnone
      · rw [if_neg hz] at hnone
        have hmidlen : ((lo + hi) / 2).toNat < chunks.length := by omega
        by_cases hlt :
            compareLseq
              (chunks.getD ((lo + hi) / 2).toNat defaultChunk).id id < 0
        · rw [if_pos hlt] at hnone
          refine ih ((lo + hi) / 2 + 1) hi (by omega) (by omega) hlen
            ?_ hhigh hnone j hj
          intro k hk hklo
          rcases Int.lt_or_le (k : Int) lo with h | h
          · exact hlow k hk h
          · rcases Nat.lt_or_ge k ((lo + hi) / 2).toNat with h2 | h2
            · have hcl := sorted_getD_lt chunks hs h2 hmidlen
              rw [compareLseq_lt_iff] at hlt
              have := compareLseq_trans _ _ _ hcl hlt
              rw [this]
              decide
            · have hkm : k = ((lo + hi) / 2).toNat := by omega
              rw [hkm, (compareLseq_lt_iff _ _).mp hlt]
              decide
        · rw [if_neg hlt] at hnone
          have h1 : compareLseq
              (chunks.getD ((lo + hi) / 2).toNat defaultChunk).id id = 1 := by
            rcases compareLseq_cases
              (chunks.getD ((lo + hi) / 2).toNat defaultChunk).id id with
              hc | hc | hc
            · exact absurd ((compareLseq_lt_iff _ _).mpr hc) hlt
            · exact absurd hc hz
            · exact hc
          refine ih lo ((lo + hi) / 2 - 1) (by omega) h0 (by omega) hlow
            ?_ hnone j hj
          intro k hk hkhi
          rcases Int.lt_or_le hi (k : Int) with h | h
          · exact hhigh k hk h
          · rcases Nat.lt_or_ge ((lo + hi) / 2).toNat k with h2 | h2
            · have hcl := sorted_getD_lt chunks hs h2 hk
              have hmid2 : compareLseq id
                  (chunks.getD ((lo + hi) / 2).toNat defaultChunk).id = -1 :=
                (compareLseq_neg_iff_pos _ _).mpr h1
              have := compareLseq_trans _ _ _ hmid2 hcl
              have h3 := (compareLseq_neg_iff_pos _ _).mp this
              rw [h3]
              decide
            · have : k = ((lo + hi) / 2).toNat := by omega
              rw [this, h1]
              decide
    · rcases Int.lt_or_le (j : Int) lo with h | h
      · exact hlow j hj h
      · exact hhigh j hj (by omega)

theorem findChunkIndex_some (chunks : List Chunk) (id : LseqId) (i : Nat)
    (h : findChunkIndex chunks id = some i) :
    i < chunks.length ∧ (chunks.getD i defaultChunk).id = id := by
  unfold findChunkIndex at h
  by_cases hg : id = [] ∨ chunks = []
  · rw [if_pos hg] at h
    cases h
  · rw [if_neg hg] at h
    exact findChunkIndexGo_some_spec chunks id
      (((chunks.length : Int) - 1) + 1 - 0).toNat 0 ((chunks.length : Int) - 1)
      (by omega) (by omega) (by omega) i h

theorem findChunkIndex_none_forall (chunks : List Chunk) (id : LseqId)
    (hs : ChunksSorted chunks) (hid : id ≠ [])
    (h : findChunkIndex chunks id = none) (j : Nat)
    (hj : j < chunks.length) : (chunks.getD j defaultChunk).id ≠ id := by
  unfold findChunkIndex at h
  by_cases hc : chunks = []
  · subst hc
    simp at hj
  · rw [if_neg (by simp [hid, hc])] at h
    intro he
    refine findChunkIndexGo_none_spec chunks id hs
      (((chunks.length : Int) - 1) + 1 - 0).toNat 0 ((chunks.length : Int) - 1)
      (by omega) (by omega) (by omega)
      (fun k hk hklo => absurd hklo (by omega))
      (fun k hk hkhi => absurd hkhi (by omega)) h j hj ?_
    rw [he]
    exact compareLseq_self id

theorem getD_mem (cs : List Chunk) (i : Nat) (hi : i < cs.length) :
    cs.getD i defaultChunk ∈ cs := by
  rw [List.getD_eq_getElem cs defaultChunk hi]
  exact List.getElem_mem hi

theorem lookup_ne_none_of_mem (cs : List Chunk) (b : Chunk) (hb : b ∈ cs)
    (x : LseqId) (hx : b.id = x) : lookupText cs x ≠ none := by
  induction cs with
  | nil => simp at hb
  | cons c cs ih =>
    rw [lookupText_cons]
    by_cases hc : c.id = x
    · rw [if_pos hc]
      simp
    · rw [if_neg hc]
      rcases List.mem_cons.mp hb with h | h
    -- if b were the head, its id would match
      · exact absurd (h ▸ hx) hc
      · exact ih h

/-- On a sorted array, `findChunkIndex` misses exactly when the id is the
falsy empty string or no chunk carries it. -/
theorem findChunkIndex_isNone_iff (chunks : List Chunk) (id : LseqId)
    (hs : ChunksSorted chunks) :
    findChunkIndex chunks id = none ↔
      (id = [] ∨ lookupText chunks id = none) := by
  constructor
  · intro h
    by_cases hid : id = []
    · exact Or.inl hid
    · refine Or.inr (lookup_eq_none_of_forall_ne chunks id ?_)
      intro b hb
      obtain ⟨j, hjlen, hjb⟩ := List.mem_iff_getElem.mp hb
      have hne := findChunkIndex_none_forall chunks id hs hid h j hjlen
      rw [List.getD_eq_getElem chunks defaultChunk hjlen, hjb] at hne
      exact hne
  · intro h
    rcases hopt : findChunkIndex chunks id with _ | i
    · rfl
    · obtain ⟨hlen, hid2⟩ := findChunkIndex_some chunks id i hopt
      rcases h with h | h
      · unfold findChunkIndex at hopt
        rw [if_pos (Or.inl h)] at hopt
        cases hopt
      · exact absurd h
          (lookup_ne_none_of_mem chunks _ (getD_mem chunks i hlen) id hid2)

/-! ## Erase / set / insert effects on the association map -/

theorem sorted_eraseAt (chunks : List Chunk) (hs : ChunksSorted chunks)
    (i : Nat) : ChunksSorted (chunks.take i ++ chunks.drop (i + 1)) := by
  rw [← List.eraseIdx_eq_take_drop_succ]
  exact hs.sublist (List.eraseIdx_sublist chunks i)

theorem lookup_eraseAt (chunks : List Chunk) (hs : ChunksSorted chunks)
    (i : Nat) (hi : i < chunks.length) (x : LseqId) :
    lookupText (chunks.take i ++ chunks.drop (i + 1)) x =
      if x = (chunks.getD i defaultChunk).id then none
      else lookupText chunks x := by
  induction chunks generalizing i with
  | nil => simp at hi
  | cons d cs ih =>
    cases i with
    | zero =>
      simp only [List.take_zero, List.drop_succ_cons, List.drop_zero,
        List.nil_append, List.getD_cons_zero]
      by_cases hx : x = d.id
      · rw [if_pos hx, hx]
        exact sorted_head_lookup_tail d cs hs
      · rw [if_neg hx, lookupText_cons, if_neg (fun he => hx he.symm)]
    | succ i =>
      have hd := List.pairwise_cons.mp hs
      have hilen : i < cs.length := by simpa using hi
      simp only [List.take_succ_cons, List.drop_succ_cons, List.cons_append,
        List.getD_cons_succ]
      rw [lookupText_cons]
      by_cases hdx : d.id = x
      · rw [if_pos hdx]
        have hne : x ≠ (cs.getD i defaultChunk).id := by
          intro he
          have hcl := hd.1 _ (getD_mem cs i hilen)
          rw [← he, ← hdx, compareLseq_self] at hcl
          exact absurd hcl (by decide)
        rw [if_neg hne, lookupText_cons, if_pos hdx]
      · rw [if_neg hdx, ih hd.2 i hilen, lookupText_cons, if_neg hdx]

theorem sorted_setAt (chunks : List Chunk) (hs : ChunksSorted chunks)
    (i : Nat) (hi : i < chunks.length) (t : List Char) :
    ChunksSorted
      (chunks.set i ⟨(chunks.getD i defaultChunk).id, t⟩) := by
  induction chunks generalizing i with
  | nil => simp at hi
  | cons d cs ih =>
    have hd := List.pairwise_cons.mp hs
    cases i with
    | zero =>
      simp only [List.set_cons_zero, List.getD_cons_zero]
      exact List.pairwise_cons.mpr ⟨fun b hb => hd.1 b hb, hd.2⟩
    | succ i =>
      have hilen : i < cs.length := by simpa using hi
      simp only [List.set_cons_succ, List.getD_cons_succ]
      refine List.pairwise_cons.mpr ⟨?_, ih hd.2 i hilen⟩
      intro b hb
      rcases List.mem_or_eq_of_mem_set hb with h | h
      · exact hd.1 b h
      · have hcl := hd.1 _ (getD_mem cs i hilen)
        rw [h]
        exact hcl

theorem lookup_setAt (chunks : List Chunk) (hs : ChunksSorted chunks)
    (i : Nat) (hi : i < chunks.length) (t : List Char) (x : LseqId) :
    lookupText (chunks.set i ⟨(chunks.getD i defaultChunk).id, t⟩) x =
      if x = (chunks.getD i defaultChunk).id then some t
      else lookupText chunks x := by
  induction chunks generalizing i with
  | nil => simp at hi
  | cons d cs ih =>
    have hd := List.pairwise_cons.mp hs
    cases i with
    | zero =>
      simp only [List.set_cons_zero, List.getD_cons_zero]
      rw [lookupText_cons, lookupText_cons]
      by_cases hx : d.id = x
      · rw [if_pos hx, if_pos hx.symm]
      · rw [if_neg hx, if_neg (fun he => hx he.symm), if_neg hx]
    | succ i =>
      have hilen : i < cs.length := by simpa using hi
      simp only [List.set_cons_succ, List.getD_cons_succ]
      rw [lookupText_cons, lookupText_cons]
      by_cases hdx : d.id = x
      · rw [if_pos hdx, if_pos hdx]
        have hne : x ≠ (cs.getD i defaultChunk).id := by
          intro he
          have hcl := hd.1 _ (getD_mem cs i hilen)
          rw [← he, ← hdx, compareLseq_self] at hcl
          exact absurd hcl (by decide)
        rw [if_neg hne]
      · rw [if_neg hdx, if_neg hdx, ih hd.2 i hilen]

theorem sorted_insertChunk' (chunks : List Chunk) (c : Chunk)
    (hs : ChunksSorted chunks) : ChunksSorted (insertChunk' chunks c) := by
  rw [insertChunk_eq_orderedInsert chunks c hs]
  exact sorted_orderedInsertCh chunks c hs

theorem lookup_insertChunk' (chunks : List Chunk) (c : Chunk)
    (hs : ChunksSorted chunks) (x : LseqId) :
    lookupText (insertChunk' chunks c) x =
      if x = c.id then some ((lookupText chunks c.id).getD c.text)
      else lookupText chunks x := by
  rw [insertChunk_eq_orderedInsert chunks c hs]
  exact lookup_orderedInsertCh chunks c hs x

theorem sorted_condInsert (cs : List Chunk) (hs : ChunksSorted cs)
    (id0 : LseqId) (t : List Char) :
    ChunksSorted (if t ≠ [] then insertChunk' cs ⟨id0, t⟩ else cs) := by
  split
  · exact sorted_insertChunk' cs _ hs
  · exact hs

theorem lookup_condInsert (cs : List Chunk) (hs : ChunksSorted cs)
    (id0 : LseqId) (t : List Char) (x : LseqId) :
    lookupText (if t ≠ [] then insertChunk' cs ⟨id0, t⟩ else cs) x =
      if t ≠ [] ∧ x = id0 then some ((lookupText cs id0).getD t)
      else lookupText cs x := by
  split
  · rename_i ht
    rw [lookup_insertChunk' cs _ hs x]
    by_cases hx : x = id0
    · rw [if_pos hx, if_pos ⟨ht, hx⟩]
    · rw [if_neg hx, if_neg (fun hc => hx hc.2)]
  · rename_i ht
    rw [if_neg (fun hc => ht hc.1)]

/-! ## Replay semantics: sortedness, locality, dependence, commutation -/

theorem sorted_applyLogEntry (chunks : List Chunk) (hs : ChunksSorted chunks)
    (e : OpEntry) : ChunksSorted (applyLogEntry chunks e) := by
  cases e with
  | insert id text l r u ts => exact sorted_insertChunk' chunks _ hs
  | split targetId off orig lT insId insT rid rT u ts =>
    rcases hfi : findChunkIndex chunks targetId with _ | i
    · simp only [applyLogEntry, hfi]
      exact hs
    · have h1 := sorted_eraseAt chunks hs i
      have h2 := sorted_condInsert _ h1 targetId lT
      have h3 := sorted_insertChunk' _ ⟨insId, insT⟩ h2
      rcases rid with _ | r
      · simp only [applyLogEntry, hfi]
        exact h3
      · simp only [applyLogEntry, hfi]
        by_cases hrT : rT ≠ []
        · rw [if_pos hrT]
          exact sorted_insertChunk' _ _ h3
        · rw [if_neg hrT]
          exact h3
  | delete id text u ts =>
    rcases hfi : findChunkIndex chunks id with _ | i
    · simp only [applyLogEntry, hfi]
      exact hs
    · simp only [applyLogEntry, hfi]
      exact sorted_eraseAt chunks hs i
  | trim id s e2 dT nT u ts =>
    rcases hfi : findChunkIndex chunks id with _ | i
    · simp only [applyLogEntry, hfi]
      exact hs
    · simp only [applyLogEntry, hfi]
      by_cases hnT : nT = []
      · rw [if_pos hnT]
        exact sorted_eraseAt chunks hs i
      · rw [if_neg hnT]
        exact sorted_setAt chunks hs i (findChunkIndex_some _ _ _ hfi).1 nT

/-- Replay of an entry leaves the association at every unmentioned id
unchanged. -/
theorem lookup_applyLogEntry_not_mem (chunks : List Chunk)
    (hs : ChunksSorted chunks) (e : OpEntry) (x : LseqId)
    (hx : x ∉ entryIds e) :
    lookupText (applyLogEntry chunks e) x = lookupText chunks x := by
  cases e with
  | insert id text l r u ts =>
    have hxid : x ≠ id := by simpa [entryIds] using hx
    rw [show applyLogEntry chunks (.insert id text l r u ts) =
        insertChunk' chunks ⟨id, text⟩ from rfl,
      lookup_insertChunk' chunks _ hs x, if_neg hxid]
  | delete id text u ts =>
    have hxid : x ≠ id := by simpa [entryIds] using hx
    rcases hfi : findChunkIndex chunks id with _ | i
    · simp only [applyLogEntry, hfi]
    · obtain ⟨hlen, hid⟩ := findChunkIndex_some _ _ _ hfi
      simp only [applyLogEntry, hfi]
      rw [lookup_eraseAt chunks hs i hlen x, hid, if_neg hxid]
  | trim id s e2 dT nT u ts =>
    have hxid : x ≠ id := by simpa [entryIds] using hx
    rcases hfi : findChunkIndex chunks id with _ | i
    · simp only [applyLogEntry, hfi]
    · obtain ⟨hlen, hid⟩ := findChunkIndex_some _ _ _ hfi
      simp only [applyLogEntry, hfi]
      by_cases hnT : nT = []
      · rw [if_pos hnT, lookup_eraseAt chunks hs i hlen x, hid, if_neg hxid]
      · rw [if_neg hnT, lookup_setAt chunks hs i hlen nT x, hid,
          if_neg hxid]
  | split targetId off orig lT insId insT rid rT u ts =>
    have hxt : x ≠ targetId := fun he => hx (by simp [entryIds, he])
    have hxi : x ≠ insId := fun he => hx (by simp [entryIds, he])
    rcases hfi : findChunkIndex chunks targetId with _ | i
    · simp only [applyLogEntry, hfi]
    · obtain ⟨hlen, hid⟩ := findChunkIndex_some _ _ _ hfi
      have h1 := sorted_eraseAt chunks hs i
      have h2 := sorted_condInsert _ h1 targetId lT
      have h3 := sorted_insertChunk' _ ⟨insId, insT⟩ h2
      have E1 : ∀ y, lookupText (chunks.take i ++ chunks.drop (i + 1)) y =
          if y = targetId then none else lookupText chunks y := fun y => by
        rw [lookup_eraseAt chunks hs i hlen y, hid]
      have E2 := lookup_condInsert _ h1 targetId lT
      have E3 := lookup_insertChunk' _ ⟨insId, insT⟩ h2
      rcases rid with _ | r
      · simp only [applyLogEntry, hfi]
        simp only [E3, E2, E1]
        simp [hxt, hxi]
      · have hxr : x ≠ r := fun he => hx (by simp [entryIds, he])
        have E4 := lookup_insertChunk' _ ⟨r, rT⟩ h3
        simp only [applyLogEntry, hfi]
        by_cases hrT : rT ≠ []
        · rw [if_pos hrT]
          simp only [E4, E3, E2, E1]
          simp [hxt, hxi, hxr]
        · rw [if_neg hrT]
          simp only [E3, E2, E1]
          simp [hxt, hxi]

/-- Replay of an entry reads the association only at the ids it
mentions: two sorted arrays agreeing there stay in agreement there. -/
theorem lookup_applyLogEntry_congr (cs ds : List Chunk)
    (hcs : ChunksSorted cs) (hds : ChunksSorted ds) (e : OpEntry)
    (h : ∀ y ∈ entryIds e, lookupText cs y = lookupText ds y) :
    ∀ x ∈ entryIds e,
      lookupText (applyLogEntry cs e) x =
        lookupText (applyLogEntry ds e) x := by
  intro x hxmem
  cases e with
  | insert id text l r u ts =>
    have hl := h id (by simp [entryIds])
    rw [show applyLogEntry cs (.insert id text l r u ts) =
        insertChunk' cs ⟨id, text⟩ from rfl,
      show applyLogEntry ds (.insert id text l r u ts) =
        insertChunk' ds ⟨id, text⟩ from rfl,
      lookup_insertChunk' cs _ hcs x, lookup_insertChunk' ds _ hds x, hl]
    have hx : x = id := by simpa [entryIds] using hxmem
    rw [if_pos hx, if_pos hx]
  | delete id text u ts =>
    have hx : x = id := by simpa [entryIds] using hxmem
    subst hx
    have hl := h x (by simp [entryIds])
    have hiff : findChunkIndex cs x = none ↔ findChunkIndex ds x = none := by
      rw [findChunkIndex_isNone_iff cs x hcs,
        findChunkIndex_isNone_iff ds x hds, hl]
    rcases hc : findChunkIndex cs x with _ | i
    · rcases hd : findChunkIndex ds x with _ | j
      · simp only [applyLogEntry, hc, hd]
        exact hl
      · rw [hiff.mp hc] at hd
        cases hd
    · rcases hd : findChunkIndex ds x with _ | j
      · rw [hiff.mpr hd] at hc
        cases hc
      · obtain ⟨hlen1, hid1⟩ := findChunkIndex_some _ _ _ hc
        obtain ⟨hlen2, hid2⟩ := findChunkIndex_some _ _ _ hd
        simp only [applyLogEntry, hc, hd]
        rw [lookup_eraseAt cs hcs i hlen1 x, hid1,
          lookup_eraseAt ds hds j hlen2 x, hid2, if_pos rfl, if_pos rfl]
  | trim id s e2 dT nT u ts =>
    have hx : x = id := by simpa [entryIds] using hxmem
    subst hx
    have hl := h x (by simp [entryIds])
    have hiff : findChunkIndex cs x = none ↔ findChunkIndex ds x = none := by
      rw [findChunkIndex_isNone_iff cs x hcs,
        findChunkIndex_isNone_iff ds x hds, hl]
    rcases hc : findChunkIndex cs x with _ | i
    · rcases hd : findChunkIndex ds x with _ | j
      · simp only [applyLogEntry, hc, hd]
        exact hl
      · rw [hiff.mp hc] at hd
        cases hd
    · rcases hd : findChunkIndex ds x with _ | j
      · rw [hiff.mpr hd] at hc
        cases hc
      · obtain ⟨hlen1, hid1⟩ := findChunkIndex_some _ _ _ hc
        obtain ⟨hlen2, hid2⟩ := findChunkIndex_some _ _ _ hd
        simp only [applyLogEntry, hc, hd]
        by_cases hnT : nT = []
        · rw [if_pos hnT, if_pos hnT, lookup_eraseAt cs hcs i hlen1 x, hid1,
            lookup_eraseAt ds hds j hlen2 x, hid2, if_pos rfl, if_pos rfl]
        · rw [if_neg hnT, if_neg hnT, lookup_setAt cs hcs i hlen1 nT x, hid1,
            lookup_setAt ds hds j hlen2 nT x, hid2, if_pos rfl, if_pos rfl]
  | split targetId off orig lT insId insT rid rT u ts =>
    have hT := h targetId (by simp [entryIds])
    have hI := h insId (by simp [entryIds])
    have hX := h x hxmem
    have hiff : findChunkIndex cs targetId = none ↔
        findChunkIndex ds targetId = none := by
      rw [findChunkIndex_isNone_iff cs targetId hcs,
        findChunkIndex_isNone_iff ds targetId hds, hT]
    rcases hc : findChunkIndex cs targetId with _ | i
    · rcases hd : findChunkIndex ds targetId with _ | j
      · simp only [applyLogEntry, hc, hd]
        exact hX
      · rw [hiff.mp hc] at hd
        cases hd
    · rcases hd : findChunkIndex ds targetId with _ | j
      · rw [hiff.mpr hd] at hc
        cases hc
      · obtain ⟨hlen1, hid1⟩ := findChunkIndex_some _ _ _ hc
        obtain ⟨hlen2, hid2⟩ := findChunkIndex_some _ _ _ hd
        have hc1 := sorted_eraseAt cs hcs i
        have hc2 := sorted_condInsert _ hc1 targetId lT
        have hc3 := sorted_insertChunk' _ ⟨insId, insT⟩ hc2
        have hd1 := sorted_eraseAt ds hds j
        have hd2 := sorted_condInsert _ hd1 targetId lT
        have hd3 := sorted_insertChunk' _ ⟨insId, insT⟩ hd2
        have E1 : ∀ y, lookupText (cs.take i ++ cs.drop (i + 1)) y =
            if y = targetId then none else lookupText cs y := fun y => by
          rw [lookup_eraseAt cs hcs i hlen1 y, hid1]
        have E2 := lookup_condInsert _ hc1 targetId lT
        have E3 := lookup_insertChunk' _ ⟨insId, insT⟩ hc2
        have F1 : ∀ y, lookupText (ds.take j ++ ds.drop (j + 1)) y =
            if y = targetId then none else lookupText ds y := fun y => by
          rw [lookup_eraseAt ds hds j hlen2 y, hid2]
        have F2 := lookup_condInsert _ hd1 targetId lT
        have F3 := lookup_insertChunk' _ ⟨insId, insT⟩ hd2
        rcases rid with _ | r
        · simp only [applyLogEntry, hc, hd]
          simp only [E3, E2, E1, F3, F2, F1, hT, hI, hX]
        · have hR := h r (by simp [entryIds])
          have E4 := lookup_insertChunk' _ ⟨r, rT⟩ hc3
          have F4 := lookup_insertChunk' _ ⟨r, rT⟩ hd3
          simp only [applyLogEntry, hc, hd]
          by_cases hrT : rT ≠ []
          · rw [if_pos hrT, if_pos hrT]
            simp only [E4, E3, E2, E1, F4, F3, F2, F1, hT, hI, hR, hX]
          · rw [if_neg hrT, if_neg hrT]
            simp only [E3, E2, E1, F3, F2, F1, hT, hI, hX]

/-- Replay of two id-disjoint entries commutes on sorted chunk arrays. -/
theorem applyLogEntry_comm (cs : List Chunk) (hs : ChunksSorted cs)
    (a b : OpEntry) (hdis : EntryDisjoint a b) :
    applyLogEntry (applyLogEntry cs a) b =
      applyLogEntry (applyLogEntry cs b) a := by
  have hsa := sorted_applyLogEntry cs hs a
  have hsb := sorted_applyLogEntry cs hs b
  apply sorted_lookup_ext _ _ (sorted_applyLogEntry _ hsa b)
    (sorted_applyLogEntry _ hsb a)
  intro x
  by_cases hxa : x ∈ entryIds a
  · have hxb : x ∉ entryIds b := hdis x hxa
    rw [lookup_applyLogEntry_not_mem _ hsa b x hxb,
      lookup_applyLogEntry_congr (applyLogEntry cs b) cs hsb hs a
        (fun y hy => lookup_applyLogEntry_not_mem cs hs b y (hdis y hy))
        x hxa]
  · by_cases hxb : x ∈ entryIds b
    · rw [lookup_applyLogEntry_not_mem _ hsb a x hxa,
        lookup_applyLogEntry_congr (applyLogEntry cs a) cs hsa hs b
          (fun y hy => lookup_applyLogEntry_not_mem cs hs a y
            (fun hya => hdis y hya hy)) x hxb]
    · rw [lookup_applyLogEntry_not_mem _ hsa b x hxb,
        lookup_applyLogEntry_not_mem cs hs a x hxa,
        lookup_applyLogEntry_not_mem _ hsb a x hxa,
        lookup_applyLogEntry_not_mem cs hs b x hxb]

theorem sorted_applyLogs (cs : List Chunk) (hs : ChunksSorted cs)
    (logs : List OpEntry) : ChunksSorted (applyLogs cs logs) := by
  induction logs generalizing cs with
  | nil => exact hs
  | cons e rest ih => exact ih _ (sorted_applyLogEntry cs hs e)

theorem applyLogs_commSwap (cs : List Chunk) (hs : ChunksSorted cs)
    {l1 l2 : List OpEntry} (hsw : CommSwap l1 l2) :
    applyLogs cs l1 = applyLogs cs l2 := by
  rcases hsw with ⟨pre, post, a, b, hdis⟩
  show (pre ++ a :: b :: post).foldl applyLogEntry cs =
    (pre ++ b :: a :: post).foldl applyLogEntry cs
  rw [List.foldl_append, List.foldl_append, List.foldl_cons,
    List.foldl_cons, List.foldl_cons, List.foldl_cons,
    applyLogEntry_comm (List.foldl applyLogEntry cs pre)
      (sorted_applyLogs cs hs pre) a b hdis]

theorem applyLogs_commPerm (cs : List Chunk) (hs : ChunksSorted cs)
    {l1 l2 : List OpEntry} (hp : CommPerm l1 l2) :
    applyLogs cs l1 = applyLogs cs l2 := by
  induction hp with
  | refl l => rfl
  | step hsw _ ih => exact (applyLogs_commSwap cs hs hsw).trans ih

/-- **C1 (amended)**: replay convergence holds for every starting chunk
list satisfying the documented invariant — strictly increasing by id.
Any two op logs that differ only by transpositions of adjacent
id-disjoint (commuting) operations replay to equal chunk lists.  The
sortedness hypothesis cannot be dropped (see the counterexample). -/
theorem replay_convergence (snapshotChunks : List Chunk)
    (hs : ChunksSorted snapshotChunks) (log1 log2 : List OpEntry)
    (hp : CommPerm log1 log2) :
    applyLogs snapshotChunks log1 = applyLogs snapshotChunks log2 :=
  applyLogs_commPerm snapshotChunks hs hp

/-- Witness for the amended C1: a delete and an insert on disjoint ids,
swapped over the sorted list [[1] ↦ "a", [2] ↦ "b"]. -/
theorem replay_convergence_witness :
    applyLogs [⟨[1], ['a']⟩, ⟨[2], ['b']⟩]
        [OpEntry.delete [1] ['a'] 0 0,
          OpEntry.insert [3] ['c'] none none 0 0] =
      applyLogs [⟨[1], ['a']⟩, ⟨[2], ['b']⟩]
        [OpEntry.insert [3] ['c'] none none 0 0,
          OpEntry.delete [1] ['a'] 0 0] :=
  replay_convergence [⟨[1], ['a']⟩, ⟨[2], ['b']⟩] (by decide)
    [OpEntry.delete [1] ['a'] 0 0, OpEntry.insert [3] ['c'] none none 0 0]
    [OpEntry.insert [3] ['c'] none none 0 0, OpEntry.delete [1] ['a'] 0 0]
    (CommPerm.step
      (CommSwap.mk [] [] (OpEntry.delete [1] ['a'] 0 0)
        (OpEntry.insert [3] ['c'] none none 0 0) (by decide))
      (CommPerm.refl _))

/-- **C1 counterexample**: over arbitrary (unsorted) starting chunk
lists the claim fails.  On [[1], [3], [2]] the binary search misses the
out-of-place id [2], so the two deletes of the disjoint ids [2] and [3]
— a single commuting transposition apart — replay to different lists. -/
theorem replay_convergence_counterexample :
    CommSwap
        [OpEntry.delete [2] ['c'] 0 0, OpEntry.delete [3] ['b'] 0 0]
        [OpEntry.delete [3] ['b'] 0 0, OpEntry.delete [2] ['c'] 0 0] ∧
      applyLogs [⟨[1], ['a']⟩, ⟨[3], ['b']⟩, ⟨[2], ['c']⟩]
          [OpEntry.delete [2] ['c'] 0 0, OpEntry.delete [3] ['b'] 0 0] =
        [⟨[1], ['a']⟩, ⟨[2], ['c']⟩] ∧
      applyLogs [⟨[1], ['a']⟩, ⟨[3], ['b']⟩, ⟨[2], ['c']⟩]
          [OpEntry.delete [3] ['b'] 0 0, OpEntry.delete [2] ['c'] 0 0] =
        [⟨[1], ['a']⟩] ∧
      applyLogs [⟨[1], ['a']⟩, ⟨[3], ['b']⟩, ⟨[2], ['c']⟩]
          [OpEntry.delete [2] ['c'] 0 0, OpEntry.delete [3] ['b'] 0 0] ≠
        applyLogs [⟨[1], ['a']⟩, ⟨[3], ['b']⟩, ⟨[2], ['c']⟩]
          [OpEntry.delete [3] ['b'] 0 0, OpEntry.delete [2] ['c'] 0 0] := by
  have h1 : applyLogs [⟨[1], ['a']⟩, ⟨[3], ['b']⟩, ⟨[2], ['c']⟩]
      [OpEntry.delete [2] ['c'] 0 0, OpEntry.delete [3] ['b'] 0 0] =
      [⟨[1], ['a']⟩, ⟨[2], ['c']⟩] := by
    simp [applyLogs, applyLogEntry, findChunkIndex, findChunkIndexGo,
      compareLseq]
  have h2 : applyLogs [⟨[1], ['a']⟩, ⟨[3], ['b']⟩, ⟨[2], ['c']⟩]
      [OpEntry.delete [3] ['b'] 0 0, OpEntry.delete [2] ['c'] 0 0] =
      [⟨[1], ['a']⟩] := by
    simp [applyLogs, applyLogEntry, findChunkIndex, findChunkIndexGo,
      compareLseq]
  refine ⟨CommSwap.mk [] [] _ _ (by decide), h1, h2, ?_⟩
  rw [h1, h2]
  decide


/-! ## C2: replay refines the live mutations -/

/-- Each successful dispatcher mutation runs only on a NORMAL document,
appends exactly one log entry, and replaying that entry on the pre-state
chunk list reproduces the post-state chunk list. -/
theorem docStep_log_replay {d d' : Doc} (h : DocStep d d') :
    d.status = DOC_STATUS_NORMAL ∧
      ∃ e : OpEntry, d'.logMetadata = d.logMetadata ++ [e] ∧
        applyLogEntry d.chunks e = d'.chunks := by
  cases h with
  | insertText rand leftId rightId text userId time r heq =>
    unfold insertTextCore at heq
    split at heq
    · cases heq
    · rename_i hst
      split at heq
      · cases heq
      · rename_i chunks2 pos hins
        simp only [Option.some.injEq, Prod.mk.injEq] at heq
        obtain ⟨-, hd2⟩ := heq
        subst hd2
        refine ⟨by omega, OpEntry.insert
          (generateLseqBetween leftId rightId rand) text leftId rightId
          userId time, rfl, ?_⟩
        show insertChunk' d.chunks
          ⟨generateLseqBetween leftId rightId rand, text⟩ = chunks2
        unfold insertChunk'
        rw [hins]
  | splitIns rand1 rand2 targetId offset text userId time r heq =>
    unfold splitAndInsertCore at heq
    split at heq
    · cases heq
    · rename_i hst
      split at heq
      · cases heq
      · rename_i targetIdx hfi
        split at heq
        · cases heq
        · rename_i hoff
          simp only [Option.some.injEq, Prod.mk.injEq] at heq
          obtain ⟨-, hd2⟩ := heq
          subst hd2
          refine ⟨by omega, OpEntry.split targetId offset
            (d.chunks.getD targetIdx defaultChunk).text
            ((d.chunks.getD targetIdx defaultChunk).text.take offset.toNat)
            (generateLseqBetween (some targetId)
              (Option.map Chunk.id (d.chunks.get? (targetIdx + 1))) rand1)
            text
            (if (d.chunks.getD targetIdx defaultChunk).text.drop
                offset.toNat ≠ [] then
              some (generateLseqBetween
                (some (generateLseqBetween (some targetId)
                  (Option.map Chunk.id (d.chunks.get? (targetIdx + 1)))
                  rand1))
                (Option.map Chunk.id (d.chunks.get? (targetIdx + 1))) rand2)
            else none)
            ((d.chunks.getD targetIdx defaultChunk).text.drop offset.toNat)
            userId time, rfl, ?_⟩
          simp only [applyLogEntry, hfi]
          by_cases hlT : (d.chunks.getD targetIdx defaultChunk).text.take
              offset.toNat ≠ []
          · by_cases hrT : (d.chunks.getD targetIdx defaultChunk).text.drop
                offset.toNat ≠ []
            · simp only [if_pos hlT, if_pos hrT, List.cons_append,
                List.nil_append, List.foldl_cons, List.foldl_nil]
            · simp only [if_pos hlT, if_neg hrT, List.cons_append,
                List.nil_append, List.foldl_cons, List.foldl_nil]
          · by_cases hrT : (d.chunks.getD targetIdx defaultChunk).text.drop
                offset.toNat ≠ []
            · simp only [if_neg hlT, if_pos hrT, List.cons_append,
                List.nil_append, List.foldl_cons, List.foldl_nil]
            · simp only [if_neg hlT, if_neg hrT, List.cons_append,
                List.nil_append, List.foldl_cons, List.foldl_nil]
  | delChunk chunkId userId time v i t c heq =>
    unfold deleteChunkCore at heq
    split at heq
    · cases heq
    · rename_i hst
      split at heq
      · simp at heq
      · rename_i chunkIdx hfi
        simp only [Option.some.injEq, DeleteOut.ok.injEq] at heq
        obtain ⟨-, -, -, -, hd2⟩ := heq
        subst hd2
        refine ⟨by omega, OpEntry.delete chunkId
          (d.chunks.getD chunkIdx defaultChunk).text userId time, rfl, ?_⟩
        simp only [applyLogEntry, hfi]
  | trimC chunkId s e userId time v i t rt c heq =>
    unfold trimChunkCore at heq
    split at heq
    · cases heq
    · rename_i hst
      split at heq
      · simp at heq
      · rename_i chunkIdx hfi
        simp only [Option.some.injEq, TrimOut.ok.injEq] at heq
        obtain ⟨-, -, -, -, -, hd2⟩ := heq
        subst hd2
        refine ⟨by omega, OpEntry.trim chunkId s e
          (jsSubstring (d.chunks.getD chunkIdx defaultChunk).text s e)
          (jsSubstring (d.chunks.getD chunkIdx defaultChunk).text 0 s ++
            jsSubstring (d.chunks.getD chunkIdx defaultChunk).text e
              ((d.chunks.getD chunkIdx defaultChunk).text.length : Int))
          userId time, rfl, ?_⟩
        simp only [applyLogEntry, hfi]

theorem applyLogs_append_one (cs : List Chunk) (l : List OpEntry)
    (e : OpEntry) :
    applyLogs cs (l ++ [e]) = applyLogEntry (applyLogs cs l) e := by
  unfold applyLogs
  rw [List.foldl_append, List.foldl_cons, List.foldl_nil]

/-- Replaying the accumulated log of any run of successful mutations on
the snapshot-loaded chunk list yields the current chunk list. -/
theorem docSteps_replay {d0 d : Doc} (h0 : d0.logMetadata = [])
    (hsteps : DocSteps d0 d) :
    applyLogs d0.chunks d.logMetadata = d.chunks := by
  induction hsteps with
  | refl => rw [h0]; rfl
  | tail hs hstep ih =>
    obtain ⟨_, e, hlog, hrep⟩ := docStep_log_replay hstep
    rw [hlog, applyLogs_append_one, ih, hrep]

/-- Replay is total: an entry whose looked-up chunk id is absent lands in
the `targetIdx === -1` guard and leaves the chunk list unchanged. -/
theorem applyLogEntry_absent (chunks : List Chunk) (e : OpEntry)
    (ref : LseqId) (href : OpEntry.refId e = some ref)
    (habs : ∀ c ∈ chunks, c.id ≠ ref) :
    applyLogEntry chunks e = chunks := by
  have hnone : findChunkIndex chunks ref = none := by
    rcases hfi : findChunkIndex chunks ref with _ | i
    · rfl
    · obtain ⟨hlen, hid⟩ := findChunkIndex_some _ _ _ hfi
      exact absurd hid (habs _ (getD_mem chunks i hlen))
  cases e with
  | insert id text l r u ts => cases href
  | split targetId off orig lT insId insT rid rT u ts =>
    have : targetId = ref := Option.some.inj href
    subst this
    simp only [applyLogEntry, hnone]
  | delete id text u ts =>
    have : id = ref := Option.some.inj href
    subst this
    simp only [applyLogEntry, hnone]
  | trim id s e2 dT nT u ts =>
    have : id = ref := Option.some.inj href
    subst this
    simp only [applyLogEntry, hnone]

/-- **C2**: replay refines the live mutations and is total.  (i) A
successful dispatcher mutation requires NORMAL status, appends exactly
one log entry, and replaying that entry maps the pre-state chunk list to
the post-state chunk list; (ii) hence replaying the accumulated log onto
the snapshot-loaded chunk list yields the current chunk list; (iii) an
entry whose referenced chunk id is absent replays as a no-op instead of
erroring. -/
theorem replay_refines_mutations :
    (∀ d d' : Doc, DocStep d d' → d.status = DOC_STATUS_NORMAL ∧
      ∃ e : OpEntry, d'.logMetadata = d.logMetadata ++ [e] ∧
        applyLogEntry d.chunks e = d'.chunks) ∧
    (∀ d0 d : Doc, d0.logMetadata = [] → DocSteps d0 d →
      applyLogs d0.chunks d.logMetadata = d.chunks) ∧
    (∀ (chunks : List Chunk) (e : OpEntry) (ref : LseqId),
      OpEntry.refId e = some ref → (∀ c ∈ chunks, c.id ≠ ref) →
      applyLogEntry chunks e = chunks) :=
  ⟨fun _ _ h => docStep_log_replay h,
    fun _ _ h0 hsteps => docSteps_replay h0 hsteps,
    fun chunks e ref href habs => applyLogEntry_absent chunks e ref href habs⟩

/-- Witness for C2: the zero-step run on a loaded one-chunk document, and
a delete of the absent id [2] replaying as a no-op. -/
theorem replay_refines_mutations_witness :
    applyLogs [Chunk.mk [1] ['a']] [] = [Chunk.mk [1] ['a']] ∧
      applyLogEntry [Chunk.mk [1] ['a']]
        (OpEntry.delete [2] [] 0 0) = [Chunk.mk [1] ['a']] :=
  ⟨replay_refines_mutations.2.1
      (Doc.mk 0 ['a'] [Chunk.mk [1] ['a']] [] ['1'] 0)
      (Doc.mk 0 ['a'] [Chunk.mk [1] ['a']] [] ['1'] 0) rfl
      (DocSteps.refl _),
    replay_refines_mutations.2.2 [Chunk.mk [1] ['a']]
      (OpEntry.delete [2] [] 0 0) [2] rfl (by decide)⟩


/-! ## C5: order / content coherence -/

/-- Every successful mutation stores `chunksToContent` of its new chunk
list as the new `content`. -/
theorem docStep_content {d d' : Doc} (h : DocStep d d') :
    d'.content = chunksToContent d'.chunks := by
  cases h with
  | insertText rand leftId rightId text userId time r heq =>
    unfold insertTextCore at heq
    split at heq
    · cases heq
    · split at heq
      · cases heq
      · rename_i chunks2 pos hins
        simp only [Option.some.injEq, Prod.mk.injEq] at heq
        obtain ⟨-, hd2⟩ := heq
        subst hd2
        rfl
  | splitIns rand1 rand2 targetId offset text userId time r heq =>
    unfold splitAndInsertCore at heq
    split at heq
    · cases heq
    · split at heq
      · cases heq
      · split at heq
        · cases heq
        · simp only [Option.some.injEq, Prod.mk.injEq] at heq
          obtain ⟨-, hd2⟩ := heq
          subst hd2
          rfl
  | delChunk chunkId userId time v i t c heq =>
    unfold deleteChunkCore at heq
    split at heq
    · cases heq
    · split at heq
      · simp at heq
      · simp only [Option.some.injEq, DeleteOut.ok.injEq] at heq
        obtain ⟨-, -, -, -, hd2⟩ := heq
        subst hd2
        rfl
  | trimC chunkId s e userId time v i t rt c heq =>
    unfold trimChunkCore at heq
    split at heq
    · cases heq
    · split at heq
      · simp at heq
      · simp only [Option.some.injEq, TrimOut.ok.injEq] at heq
        obtain ⟨-, -, -, -, -, hd2⟩ := heq
        subst hd2
        rfl

/-- **C5**: after any sequence of successful dispatcher operations on a
document whose loaded state is strictly id-sorted with coherent content,
the chunk list stays strictly increasing by LSEQ id and the cached
content equals the concatenation of the chunk texts in id order. -/
theorem order_content_coherence (d0 d : Doc)
    (h1 : ChunksSorted d0.chunks)
    (h2 : d0.content = chunksToContent d0.chunks)
    (hsteps : DocSteps d0 d) :
    ChunksSorted d.chunks ∧ d.content = chunksToContent d.chunks := by
  induction hsteps with
  | refl => exact ⟨h1, h2⟩
  | tail hs hstep ih =>
    obtain ⟨_, e, _, hrep⟩ := docStep_log_replay hstep
    exact ⟨hrep ▸ sorted_applyLogEntry _ ih.1 e, docStep_content hstep⟩

/-- Witness for C5 on a concrete loaded one-chunk document. -/
theorem order_content_coherence_witness :
    ChunksSorted (Doc.mk 0 ['a'] [Chunk.mk [1] ['a']] [] ['1'] 0).chunks ∧
      (Doc.mk 0 ['a'] [Chunk.mk [1] ['a']] [] ['1'] 0).content =
        chunksToContent
          (Doc.mk 0 ['a'] [Chunk.mk [1] ['a']] [] ['1'] 0).chunks :=
  order_content_coherence _ _ (by decide) (by decide) (DocSteps.refl _)


/-! ## C6: snapshot postcondition -/

/-- **C6**: for a cached document at version `s.n.l`, a successful
`createSnapshot` sets the version to `s.(n+1).0` in both the stored row
and the cached record, empties both op logs, and stores chunks equal to
the in-memory chunk list with content equal to their concatenation. -/
theorem snapshot_postcondition (c : Doc) (s : StoredDoc)
    (sv sn sl : Nat) (hv : parseVersion c.snapshotVersion = ⟨sv, sn, sl⟩) :
    ∃ nv s2 c2, createSnapshot (some c) (some s) = some (nv, s2, c2) ∧
      nv = stringifyVersion ⟨sv, sn + 1, 0⟩ ∧
      s2.snapshotVersion = nv ∧ c2.snapshotVersion = nv ∧
      s2.logMetadata = [] ∧ c2.logMetadata = [] ∧
      s2.charsData = c.chunks ∧ c2.chunks = c.chunks ∧
      s2.content = chunksToContent c.chunks ∧
      c2.content = chunksToContent c.chunks := by
  refine ⟨_, _, _, rfl, ?_, rfl, rfl, rfl, rfl, ?_, ?_, rfl, rfl⟩
  · unfold incrementSnapshotVersion
    rw [hv]
  · exact List.map_id c.chunks
  · exact List.map_id c.chunks

/-- Witness for C6 at version string "1.0.17". -/
theorem snapshot_postcondition_witness :
    ∃ nv s2 c2,
      createSnapshot
          (some (Doc.mk 0 ['a'] [Chunk.mk [1] ['a']] []
            ['1', '.', '0', '.', '1', '7'] 0))
          (some (StoredDoc.mk [] [] [] ['1', '.', '0', '.', '1', '7'] 0)) =
        some (nv, s2, c2) ∧
      nv = stringifyVersion ⟨1, 0 + 1, 0⟩ ∧
      s2.snapshotVersion = nv ∧ c2.snapshotVersion = nv ∧
      s2.logMetadata = [] ∧ c2.logMetadata = [] ∧
      s2.charsData = [Chunk.mk [1] ['a']] ∧
      c2.chunks = [Chunk.mk [1] ['a']] ∧
      s2.content = chunksToContent [Chunk.mk [1] ['a']] ∧
      c2.content = chunksToContent [Chunk.mk [1] ['a']] :=
  snapshot_postcondition
    (Doc.mk 0 ['a'] [Chunk.mk [1] ['a']] [] ['1', '.', '0', '.', '1', '7'] 0)
    (StoredDoc.mk [] [] [] ['1', '.', '0', '.', '1', '7'] 0)
    1 0 17 (by decide)


/-! ## C7: durable-store version monotonicity -/

/-- **C7 (amended)**: the periodic write-through path
(`syncDocToSupabase`) writes the durable row only when the cached version
strictly exceeds the stored version, the written version is the cached
one (hence strictly newer), and an equal-or-lower cached version leaves
the row unchanged; `createSnapshot`, by contrast, writes unconditionally
whenever both the cached record and the stored row exist. -/
theorem durable_write_monotone (cd : Doc) (sd : StoredDoc) :
    (∀ out, syncDocToSupabase (some cd) (some sd) = some out →
      0 < compareVersion cd.snapshotVersion sd.snapshotVersion ∧
      out.snapshotVersion = cd.snapshotVersion) ∧
    (compareVersion cd.snapshotVersion sd.snapshotVersion ≤ 0 →
      syncDocToSupabase (some cd) (some sd) = none) ∧
    (∀ (c : Doc) (s : StoredDoc),
      (createSnapshot (some c) (some s)).isSome = true) := by
  refine ⟨?_, ?_, fun c s => rfl⟩
  · intro out hout
    simp only [syncDocToSupabase] at hout
    split at hout
    · cases hout
    · split at hout
      · rename_i hcmp
        simp only [Option.some.injEq] at hout
        subst hout
        exact ⟨hcmp, rfl⟩
      · cases hout
  · intro hle
    simp only [syncDocToSupabase]
    split
    · rfl
    · rw [if_neg (by omega)]

/-- Witness for C7 (amended): a strictly newer cached version is written
through, an older one is not. -/
theorem durable_write_monotone_witness :
    (0 < compareVersion ['1', '.', '0', '.', '2'] ['1', '.', '0', '.', '1'] ∧
      (StoredDoc.mk [] [] [] ['1', '.', '0', '.', '2'] 0).snapshotVersion =
        ['1', '.', '0', '.', '2']) ∧
    syncDocToSupabase
        (some (Doc.mk 0 [] [] [] ['1', '.', '0', '.', '1'] 0))
        (some (StoredDoc.mk [] [] [] ['1', '.', '0', '.', '2'] 0)) = none :=
  ⟨(durable_write_monotone (Doc.mk 0 [] [] [] ['1', '.', '0', '.', '2'] 0)
      (StoredDoc.mk [] [] [] ['1', '.', '0', '.', '1'] 0)).1
      (StoredDoc.mk [] [] [] ['1', '.', '0', '.', '2'] 0) (by decide),
    (durable_write_monotone (Doc.mk 0 [] [] [] ['1', '.', '0', '.', '1'] 0)
      (StoredDoc.mk [] [] [] ['1', '.', '0', '.', '2'] 0)).2.1 (by decide)⟩

/-- Counterexample to C7 as stated: `createSnapshot` writes the durable
row even though the cached version `1.0.0` is strictly lower than the
stored version `1.1.0`, and the written version equals the stored one, so
the write does not strictly increase it. -/
theorem durable_write_counterexample :
    compareVersion ['1', '.', '0', '.', '0'] ['1', '.', '1', '.', '0'] < 0 ∧
    ∃ nv s2 c2,
      createSnapshot (some (Doc.mk 0 [] [] [] ['1', '.', '0', '.', '0'] 0))
          (some (StoredDoc.mk [] [] [] ['1', '.', '1', '.', '0'] 0)) =
        some (nv, s2, c2) ∧
      compareVersion s2.snapshotVersion ['1', '.', '1', '.', '0'] = 0 :=
  ⟨by decide, _, _, _, rfl, by decide⟩


/-! ## C8: locked documents reject edits without side effects -/

/-- **C8**: a viewer's `editDoc` or `editDocBatch` on a LOCKED cached
document receives `editRejected` and the cache (chunks, log, content,
version) is returned unchanged; unlocking restores a NORMAL record with
the same data, and on a NORMAL record with the target chunk present a
fresh delete edit from the same viewer succeeds with a `docOp` reply. -/
theorem locked_doc_rejects (ws : Sess) (cache : DocCache) (docId : Nat)
    (doc : Doc) (hview : ws.currentDoc = some docId)
    (hdoc : cache docId = some doc)
    (hlock : doc.status = DOC_STATUS_LOCKED) :
    (∀ (rand : Nat → Nat → Nat) (intent : EditIntent) (time : Nat),
      handleEditDoc rand ws cache docId intent time =
        (.editRejected, cache)) ∧
    (∀ (rands : Nat → Nat → Nat → Nat → Nat) (req : BatchReq) (time : Nat),
      req.docId = docId →
      handleEditDocBatch rands ws cache req time = (.editRejected, cache)) ∧
    unlockDocCache cache docId docId =
      some { doc with status := DOC_STATUS_NORMAL } ∧
    (∀ (cache2 : DocCache) (doc2 : Doc) (cid : LseqId) (i : Nat)
      (rand : Nat → Nat → Nat) (time : Nat), cache2 docId = some doc2 →
      doc2.status = DOC_STATUS_NORMAL →
      findChunkIndex doc2.chunks cid = some i →
      ∃ v cache3,
        handleEditDoc rand ws cache2 docId (.delete (.chunk cid)) time =
          (.docOpDelete v, cache3)) := by
  have hed : isDocEditable cache docId = false := by
    simp [isDocEditable, hdoc, hlock, DOC_STATUS_LOCKED, DOC_STATUS_NORMAL]
  refine ⟨?_, ?_, ?_, ?_⟩
  · intro rand intent time
    simp [handleEditDoc, hview, hed]
  · intro rands req time hreq
    simp [handleEditDocBatch, hreq, hview, hed]
  · simp only [unlockDocCache, setDocStatusCache, hdoc, cacheSet]
    simp
  · intro cache2 doc2 cid i rand time hc2 hst2 hfi2
    have hed2 : isDocEditable cache2 docId = true := by
      simp [isDocEditable, hc2, hst2]
    have hdel : deleteChunk cache2 docId cid ws.userId time =
        (some (DeleteOut.ok (incrementLogVersion doc2.snapshotVersion) cid
          (doc2.chunks.getD i defaultChunk).text
          (chunksToContent
            (doc2.chunks.take i ++ doc2.chunks.drop (i + 1)))
          { doc2 with
              chunks := doc2.chunks.take i ++ doc2.chunks.drop (i + 1)
              content := chunksToContent
                (doc2.chunks.take i ++ doc2.chunks.drop (i + 1))
              logMetadata := doc2.logMetadata ++
                [OpEntry.delete cid
                  (doc2.chunks.getD i defaultChunk).text ws.userId time]
              snapshotVersion := incrementLogVersion doc2.snapshotVersion }),
        cacheSet cache2 docId
          { doc2 with
              chunks := doc2.chunks.take i ++ doc2.chunks.drop (i + 1)
              content := chunksToContent
                (doc2.chunks.take i ++ doc2.chunks.drop (i + 1))
              logMetadata := doc2.logMetadata ++
                [OpEntry.delete cid
                  (doc2.chunks.getD i defaultChunk).text ws.userId time]
              snapshotVersion := incrementLogVersion doc2.snapshotVersion }) := by
      simp only [deleteChunk, hc2, deleteChunkCore]
      rw [if_neg (by simp [hst2]), hfi2]
    have hdelC : deleteCharFromDoc cache2 docId (.chunk cid) ws.userId
        time =
        (some (EditDelResult.ok (incrementLogVersion doc2.snapshotVersion)),
        cacheSet cache2 docId
          { doc2 with
              chunks := doc2.chunks.take i ++ doc2.chunks.drop (i + 1)
              content := chunksToContent
                (doc2.chunks.take i ++ doc2.chunks.drop (i + 1))
              logMetadata := doc2.logMetadata ++
                [OpEntry.delete cid
                  (doc2.chunks.getD i defaultChunk).text ws.userId time]
              snapshotVersion := incrementLogVersion doc2.snapshotVersion }) := by
      simp only [deleteCharFromDoc, hdel]
    refine ⟨incrementLogVersion doc2.snapshotVersion,
      cacheSet cache2 docId
        { doc2 with
            chunks := doc2.chunks.take i ++ doc2.chunks.drop (i + 1)
            content := chunksToContent
              (doc2.chunks.take i ++ doc2.chunks.drop (i + 1))
            logMetadata := doc2.logMetadata ++
              [OpEntry.delete cid
                (doc2.chunks.getD i defaultChunk).text ws.userId time]
            snapshotVersion := incrementLogVersion doc2.snapshotVersion },
      ?_⟩
    simp only [handleEditDoc, hview, hed2]
    rw [if_neg (by simp), if_neg (by simp)]
    rw [hdelC]

/-- Witness for C8 on a concrete locked one-chunk document. -/
theorem locked_doc_rejects_witness :
    handleEditDoc (fun _ _ => 0) (Sess.mk 7 (some 1) (some 5))
        (fun i => if i = 5 then
          some (Doc.mk 1 ['a'] [Chunk.mk [1] ['a']] [] ['1']
            DOC_STATUS_LOCKED)
        else none) 5 (.delete (.chunk [1])) 0 =
      (.editRejected,
        fun i => if i = 5 then
          some (Doc.mk 1 ['a'] [Chunk.mk [1] ['a']] [] ['1']
            DOC_STATUS_LOCKED)
        else none) :=
  (locked_doc_rejects (Sess.mk 7 (some 1) (some 5))
    (fun i => if i = 5 then
      some (Doc.mk 1 ['a'] [Chunk.mk [1] ['a']] [] ['1'] DOC_STATUS_LOCKED)
    else none) 5
    (Doc.mk 1 ['a'] [Chunk.mk [1] ['a']] [] ['1'] DOC_STATUS_LOCKED)
    rfl rfl rfl).1 (fun _ _ => 0) (.delete (.chunk [1])) 0


/-! ## C9: split degrade law -/

theorem lookup_getD (cs : List Chunk) (hs : ChunksSorted cs) :
    ∀ i : Nat, i < cs.length →
    lookupText cs ((cs.getD i defaultChunk).id) =
      some ((cs.getD i defaultChunk).text) := by
  induction cs with
  | nil =>
    intro i hi
    simp at hi
  | cons c t ih =>
    intro i hi
    cases i with
    | zero =>
      simp only [List.getD_cons_zero]
      rw [lookupText_cons, if_pos rfl]
    | succ j =>
      simp only [List.getD_cons_succ]
      have hj : j < t.length := by simpa using hi
      rw [lookupText_cons, if_neg ?hne]
      · exact ih (List.pairwise_cons.mp hs).2 j hj
      case hne =>
        intro hEq
        have hcmp := (List.pairwise_cons.mp hs).1 _ (getD_mem t j hj)
        rw [hEq, compareLseq_self] at hcmp
        exact absurd hcmp (by decide)

/-- Re-inserting the chunk erased at a valid index of a sorted list
restores the original list. -/
theorem insertChunk_reinsert (cs : List Chunk) (hs : ChunksSorted cs)
    (i : Nat) (hi : i < cs.length) :
    insertChunk' (cs.take i ++ cs.drop (i + 1)) (cs.getD i defaultChunk) =
      cs := by
  apply sorted_lookup_ext
  · exact sorted_insertChunk' _ _ (sorted_eraseAt cs hs i)
  · exact hs
  · intro y
    rw [lookup_insertChunk' _ _ (sorted_eraseAt cs hs i) y]
    by_cases hy : y = (cs.getD i defaultChunk).id
    · rw [if_pos hy, lookup_eraseAt cs hs i hi, if_pos rfl, hy,
        lookup_getD cs hs i hi]
      rfl
    · rw [if_neg hy, lookup_eraseAt cs hs i hi y, if_neg hy]

/-- **C9 (amended)**: on a sorted document whose target chunk is present
with nonempty text, `splitAndInsert` at `offset = len` produces exactly
the chunk list of a plain neighbor insert of the generated id between the
target and its successor; at `offset = 0` it logs no empty chunk (the
split result is the inserted chunk followed by the whole original text
under a freshly generated id, so the original target id is dropped rather
than reused). -/
theorem split_degrade (rand1 rand2 : Nat → Nat → Nat) (d : Doc)
    (targetId : LseqId) (text : List Char) (userId time : Nat) (idx : Nat)
    (hs : ChunksSorted d.chunks) (hst : d.status = DOC_STATUS_NORMAL)
    (hfi : findChunkIndex d.chunks targetId = some idx)
    (horig : (d.chunks.getD idx defaultChunk).text ≠ [])
    (htext : text ≠ []) :
    (splitAndInsertCore rand1 rand2 d targetId
        ((d.chunks.getD idx defaultChunk).text.length : Int) text userId
        time).map (fun p => p.2.chunks) =
      some (insertChunk' d.chunks
        ⟨generateLseqBetween (some targetId)
          ((d.chunks.get? (idx + 1)).map Chunk.id) rand1, text⟩) ∧
    (splitAndInsertCore rand1 rand2 d targetId 0 text userId time).map
        (fun p => (p.1.splitResult, p.2.chunks)) =
      some ([⟨generateLseqBetween (some targetId)
            ((d.chunks.get? (idx + 1)).map Chunk.id) rand1, text⟩,
          ⟨generateLseqBetween
            (some (generateLseqBetween (some targetId)
              ((d.chunks.get? (idx + 1)).map Chunk.id) rand1))
            ((d.chunks.get? (idx + 1)).map Chunk.id) rand2,
          (d.chunks.getD idx defaultChunk).text⟩],
        insertChunk' (insertChunk'
          (d.chunks.take idx ++ d.chunks.drop (idx + 1))
          ⟨generateLseqBetween (some targetId)
            ((d.chunks.get? (idx + 1)).map Chunk.id) rand1, text⟩)
          ⟨generateLseqBetween
            (some (generateLseqBetween (some targetId)
              ((d.chunks.get? (idx + 1)).map Chunk.id) rand1))
            ((d.chunks.get? (idx + 1)).map Chunk.id) rand2,
          (d.chunks.getD idx defaultChunk).text⟩) ∧
    (∀ c ∈ [(⟨generateLseqBetween (some targetId)
          ((d.chunks.get? (idx + 1)).map Chunk.id) rand1, text⟩ : Chunk),
        ⟨generateLseqBetween
          (some (generateLseqBetween (some targetId)
            ((d.chunks.get? (idx + 1)).map Chunk.id) rand1))
          ((d.chunks.get? (idx + 1)).map Chunk.id) rand2,
        (d.chunks.getD idx defaultChunk).text⟩], c.text ≠ []) := by
  obtain ⟨hidx, hid⟩ := findChunkIndex_some d.chunks targetId idx hfi
  refine ⟨?_, ?_, ?_⟩
  · simp only [splitAndInsertCore, hfi]
    rw [if_neg (by simp [hst]), if_neg (by omega)]
    simp only [Int.toNat_natCast, List.take_length, List.drop_length,
      Option.map_some]
    rw [if_pos horig, if_neg (by simp)]
    simp only [List.cons_append, List.nil_append, List.append_nil,
      List.foldl_cons, List.foldl_nil]
    have hT : (⟨targetId, (d.chunks.getD idx defaultChunk).text⟩ : Chunk) =
        d.chunks.getD idx defaultChunk := by
      rw [← hid]
    rw [hT, insertChunk_reinsert d.chunks hs idx hidx]
    rfl
  · simp only [splitAndInsertCore, hfi]
    rw [if_neg (by simp [hst]), if_neg (by omega)]
    simp only [Int.toNat_zero, List.take_zero, List.drop_zero,
      Option.map_some]
    rw [if_neg (by simp), if_pos horig]
    simp only [List.cons_append, List.nil_append, List.foldl_cons,
      List.foldl_nil]
    rfl
  · intro c hc
    rcases List.mem_cons.mp hc with rfl | hc2
    · exact htext
    · rw [List.mem_singleton] at hc2
      subst hc2
      exact horig

/-- Witness for C9 (amended) on a concrete one-chunk document. -/
theorem split_degrade_witness :
    (splitAndInsertCore (fun _ _ => 0) (fun _ _ => 0) (Doc.mk 0 ['a', 'b'] [Chunk.mk [2] ['a', 'b']] [] ['1'] 0) [2]
        (((Doc.mk 0 ['a', 'b'] [Chunk.mk [2] ['a', 'b']] [] ['1'] 0).chunks.getD 0 defaultChunk).text.length : Int) ['X'] 9
        0).map (fun p => p.2.chunks) =
      some (insertChunk' (Doc.mk 0 ['a', 'b'] [Chunk.mk [2] ['a', 'b']] [] ['1'] 0).chunks
        ⟨generateLseqBetween (some [2])
          (((Doc.mk 0 ['a', 'b'] [Chunk.mk [2] ['a', 'b']] [] ['1'] 0).chunks.get? (0 + 1)).map Chunk.id) (fun _ _ => 0), ['X']⟩) ∧
    (splitAndInsertCore (fun _ _ => 0) (fun _ _ => 0) (Doc.mk 0 ['a', 'b'] [Chunk.mk [2] ['a', 'b']] [] ['1'] 0) [2] 0 ['X'] 9 0).map
        (fun p => (p.1.splitResult, p.2.chunks)) =
      some ([⟨generateLseqBetween (some [2])
            (((Doc.mk 0 ['a', 'b'] [Chunk.mk [2] ['a', 'b']] [] ['1'] 0).chunks.get? (0 + 1)).map Chunk.id) (fun _ _ => 0), ['X']⟩,
          ⟨generateLseqBetween
            (some (generateLseqBetween (some [2])
              (((Doc.mk 0 ['a', 'b'] [Chunk.mk [2] ['a', 'b']] [] ['1'] 0).chunks.get? (0 + 1)).map Chunk.id) (fun _ _ => 0)))
            (((Doc.mk 0 ['a', 'b'] [Chunk.mk [2] ['a', 'b']] [] ['1'] 0).chunks.get? (0 + 1)).map Chunk.id) (fun _ _ => 0),
          ((Doc.mk 0 ['a', 'b'] [Chunk.mk [2] ['a', 'b']] [] ['1'] 0).chunks.getD 0 defaultChunk).text⟩],
        insertChunk' (insertChunk'
          ((Doc.mk 0 ['a', 'b'] [Chunk.mk [2] ['a', 'b']] [] ['1'] 0).chunks.take 0 ++ (Doc.mk 0 ['a', 'b'] [Chunk.mk [2] ['a', 'b']] [] ['1'] 0).chunks.drop (0 + 1))
          ⟨generateLseqBetween (some [2])
            (((Doc.mk 0 ['a', 'b'] [Chunk.mk [2] ['a', 'b']] [] ['1'] 0).chunks.get? (0 + 1)).map Chunk.id) (fun _ _ => 0), ['X']⟩)
          ⟨generateLseqBetween
            (some (generateLseqBetween (some [2])
              (((Doc.mk 0 ['a', 'b'] [Chunk.mk [2] ['a', 'b']] [] ['1'] 0).chunks.get? (0 + 1)).map Chunk.id) (fun _ _ => 0)))
            (((Doc.mk 0 ['a', 'b'] [Chunk.mk [2] ['a', 'b']] [] ['1'] 0).chunks.get? (0 + 1)).map Chunk.id) (fun _ _ => 0),
          ((Doc.mk 0 ['a', 'b'] [Chunk.mk [2] ['a', 'b']] [] ['1'] 0).chunks.getD 0 defaultChunk).text⟩) ∧
    (∀ c ∈ [(⟨generateLseqBetween (some [2])
          (((Doc.mk 0 ['a', 'b'] [Chunk.mk [2] ['a', 'b']] [] ['1'] 0).chunks.get? (0 + 1)).map Chunk.id) (fun _ _ => 0), ['X']⟩ : Chunk),
        ⟨generateLseqBetween
          (some (generateLseqBetween (some [2])
            (((Doc.mk 0 ['a', 'b'] [Chunk.mk [2] ['a', 'b']] [] ['1'] 0).chunks.get? (0 + 1)).map Chunk.id) (fun _ _ => 0)))
          (((Doc.mk 0 ['a', 'b'] [Chunk.mk [2] ['a', 'b']] [] ['1'] 0).chunks.get? (0 + 1)).map Chunk.id) (fun _ _ => 0),
        ((Doc.mk 0 ['a', 'b'] [Chunk.mk [2] ['a', 'b']] [] ['1'] 0).chunks.getD 0 defaultChunk).text⟩], c.text ≠ []) :=
  split_degrade (fun _ _ => 0) (fun _ _ => 0) (Doc.mk 0 ['a', 'b'] [Chunk.mk [2] ['a', 'b']] [] ['1'] 0)
    [2] ['X'] 9 0 0 (by decide) rfl
    (by simp [findChunkIndex, findChunkIndexGo, compareLseq])
    (by decide) (by decide)

/-- Counterexample to C9 as stated: at `offset = 0` on the single-chunk
document `[⟨[2], "ab"⟩]` with zero random draws, `splitAndInsert` yields
chunk ids `[3], [4]` — the target id `[2]` is dropped, not reused — while
the plain neighbor insert of the same text before that chunk yields ids
`[1], [2]`, so the two chunk lists differ. -/
theorem split_degrade_counterexample :
    (splitAndInsertCore (fun _ _ => 0) (fun _ _ => 0)
        (Doc.mk 0 ['a', 'b'] [Chunk.mk [2] ['a', 'b']] [] ['1'] 0)
        [2] 0 ['X'] 9 0).map (fun p => p.2.chunks.map Chunk.id) =
      some [[3], [4]] ∧
    (insertTextCore (fun _ _ => 0)
        (Doc.mk 0 ['a', 'b'] [Chunk.mk [2] ['a', 'b']] [] ['1'] 0)
        none (some [2]) ['X'] 9 0).map (fun p => p.2.chunks.map Chunk.id) =
      some [[1], [2]] ∧
    ([2] : LseqId) ∉ ([[3], [4]] : List LseqId) ∧
    ([[3], [4]] : List LseqId) ≠ [[1], [2]] := by
  refine ⟨?_, ?_, by decide, by decide⟩
  · simp [splitAndInsertCore, findChunkIndex, findChunkIndexGo, compareLseq,
      generateLseqBetween, genGo, insertChunk', insertChunk,
      findChunkInsertPos, findChunkInsertPosGo, LSEQ_MAX,
      DOC_STATUS_NORMAL]
  · simp [insertTextCore, insertChunk, insertChunk', findChunkIndex,
      findChunkIndexGo, compareLseq, generateLseqBetween, genGo,
      findChunkInsertPos, findChunkInsertPosGo, LSEQ_MAX,
      DOC_STATUS_NORMAL]


/-! ## C10: session registry consistency -/

/-- **C10**: the registry invariant fails on a reachable state.  After
`enterChannel(1)`, `enterDoc(1, 5)` (doc 5 lives in channel 1, status
NORMAL) and then `enterChannel(2)`, session 0 still views doc 5 while its
current channel is 2: `handleEnterChannel` switches channels without
leaving the current doc, so `SessionChannelInv` is violated. -/
theorem session_registry_violation :
    ((handleEnterChannelReg
        (handleEnterDocReg
          (handleEnterChannelReg
            (RegState.mk (fun _ => Sess.mk 0 none none) (fun _ => [])
              (fun _ => []))
            0 1 true)
          0 1 5 (some (1, DOC_STATUS_NORMAL)))
        0 2 true).sess 0).currentDoc = some 5 ∧
    ((handleEnterChannelReg
        (handleEnterDocReg
          (handleEnterChannelReg
            (RegState.mk (fun _ => Sess.mk 0 none none) (fun _ => [])
              (fun _ => []))
            0 1 true)
          0 1 5 (some (1, DOC_STATUS_NORMAL)))
        0 2 true).sess 0).currentChannel = some 2 ∧
    ¬ SessionChannelInv
      (handleEnterChannelReg
        (handleEnterDocReg
          (handleEnterChannelReg
            (RegState.mk (fun _ => Sess.mk 0 none none) (fun _ => [])
              (fun _ => []))
            0 1 true)
          0 1 5 (some (1, DOC_STATUS_NORMAL)))
        0 2 true)
      (fun d => if d = 5 then 1 else 0) 0 := by
  refine ⟨rfl, rfl, ?_⟩
  intro h
  have h5 := h 5 rfl
  exact absurd h5 (by decide)

end Syncwhere
